import Mathlib

/-!
Verification model of the cui-server conversation routes and file-system
service.  Paths and strings are modelled over `String` (with the character
list `String.data` used for computation), POSIX separators, and Node's
`path` functions are re-implemented faithfully for the fragment the server
uses.  External collaborators (history store, session-metadata store,
process manager, status tracker) are modelled as explicit state or
function parameters; where their implementation is not part of the
available sources they are modelled from the specification and marked as
such in their doc comments.
-/

deriving instance DecidableEq for Except

namespace CUI

/-! ## Character-list string utilities -/

/-- Split a character list on a separator character; mirrors
`String.prototype.split(sep)` / the segment decomposition used by
`path.normalize`.  Always returns a non-empty list. -/
def splitOnChar (sep : Char) : List Char → List (List Char)
  | [] => [[]]
  | c :: rest =>
    let r := splitOnChar sep rest
    if c = sep then [] :: r
    else (c :: r.headD []) :: r.tail

/-- Join a list of segments with a separator character, inverse of
`splitOnChar`. -/
def joinWith (sep : Char) : List (List Char) → List Char
  | [] => []
  | [s] => s
  | s :: rest => s ++ sep :: joinWith sep rest

/-- JavaScript `String.prototype.startsWith`. -/
def jsStartsWith (s pre : String) : Bool :=
  decide (pre.data <+: s.data)

/-- JavaScript `String.prototype.includes`. -/
def jsIncludes (s pat : String) : Bool :=
  decide (pat.data <:+: s.data)

/-- JavaScript `String.prototype.endsWith` on character lists. -/
def listEndsWith (s suf : List Char) : Bool :=
  decide (suf <:+ s)

/-- Whether a string contains a given character. -/
def strHasChar (s : String) (c : Char) : Bool :=
  s.data.any (fun d => d = c)

/-- The null character `\u0000`. -/
def nullChar : Char := '\u0000'

/-- Characters rejected by the file-system service's path and filename
validation, the regex class `[<>:|?*]`. -/
def invalidChars : List Char := ['<', '>', ':', '|', '?', '*']

/-- Whether a string matches the regex `[<>:|?*]` (contains at least one
invalid character). -/
def hasInvalidChar (s : String) : Bool :=
  s.data.any (fun d => d ∈ invalidChars)

/-- JavaScript truthiness of an optional string field: `undefined` and the
empty string are falsy. -/
def tsTruthy : Option String → Bool
  | none => false
  | some s => !(s = "")

/-- JavaScript `a || b` on optional string fields. -/
def tsOr (a b : Option String) : Option String :=
  if tsTruthy a then a else b

/-- Digit accumulation for `natToStr`; the first argument is fuel
bounding the number of digits. -/
def natToStrAux : Nat → Nat → List Char
  | 0, _ => []
  | fuel + 1, n =>
    if n < 10 then [Char.ofNat (48 + n)]
    else natToStrAux fuel (n / 10) ++ [Char.ofNat (48 + n % 10)]

/-- Decimal rendering of a natural number, modelling the template-literal
interpolation of a JavaScript number. -/
def natToStr (n : Nat) : String :=
  ⟨natToStrAux (n + 1) n⟩

/-! ## Node `path` (POSIX) model -/

/-- POSIX `path.isAbsolute`. -/
def pathIsAbsolute (p : String) : Bool :=
  match p.data with
  | [] => false
  | c :: _ => c = '/'

/-- Whether a segment survives `path.normalize`'s segment resolution:
empty segments (from repeated separators) and `.` segments are dropped. -/
def keepSeg (s : List Char) : Bool :=
  !(s = []) && !(s = ['.'])

/-- One step of Node's `normalizeString` segment resolution.  The
accumulator holds the resolved segments in reverse order. -/
def normStep (allowAboveRoot : Bool) (acc : List (List Char)) (seg : List Char) :
    List (List Char) :=
  if seg = [] ∨ seg = ['.'] then acc
  else if seg = ['.', '.'] then
    match acc with
    | [] => if allowAboveRoot then [seg] else []
    | top :: rest =>
      if top = ['.', '.'] then (if allowAboveRoot then seg :: acc else acc)
      else rest
  else seg :: acc

/-- POSIX `path.normalize`. -/
def pathNormalize (p : String) : String :=
  if p = "" then "."
  else
    let cs := p.data
    let abs := pathIsAbsolute p
    let trailingSep := listEndsWith cs ['/']
    let core := ((splitOnChar '/' cs).foldl (normStep (!abs)) []).reverse
    let joined := joinWith '/' core
    if joined = [] then
      if abs then "/" else (if trailingSep then "./" else ".")
    else
      let withTrail := if trailingSep then joined ++ ['/'] else joined
      if abs then ⟨'/' :: withTrail⟩ else ⟨withTrail⟩

/-- POSIX `path.join` restricted to two arguments, as the server uses it. -/
def pathJoin (a b : String) : String :=
  if a = "" ∧ b = "" then "."
  else if a = "" then pathNormalize b
  else if b = "" then pathNormalize a
  else pathNormalize (a ++ "/" ++ b)

/-- POSIX `path.basename` (one-argument form): the last path segment,
ignoring trailing separators. -/
def pathBasename (p : String) : String :=
  let cs := (p.data.reverse.dropWhile (fun c => c = '/'))
  ⟨(cs.takeWhile (fun c => !(c = '/'))).reverse⟩

/-- Index (from the start of the list) of the last occurrence of a
character, if any. -/
def lastIdxOf (c : Char) (cs : List Char) : Option Nat :=
  match cs.reverse.findIdx? (fun d => d = c) with
  | none => none
  | some i => some (cs.length - 1 - i)

/-- POSIX `path.extname` on the names the upload path feeds it (plain
filenames without separators): the suffix from the last `.`, empty when
there is no `.` or the only `.` is the leading character. -/
def pathExtname (p : String) : String :=
  let b := (pathBasename p).data
  match lastIdxOf '.' b with
  | none => ""
  | some i => if i = 0 then "" else ⟨b.drop i⟩

/-- POSIX `path.basename(p, ext)`: the basename with the extension
stripped when it is a proper suffix. -/
def pathBasenameExt (p ext : String) : String :=
  let b := pathBasename p
  if !(ext = "") && !(b = ext) && listEndsWith b.data ext.data then
    ⟨b.data.take (b.data.length - ext.data.length)⟩
  else b

/-- POSIX `path.relative(from, to)` for the already-normalized absolute
paths the bulk download route feeds it. -/
def pathRelative (src dst : String) : String :=
  let fs := (splitOnChar '/' (pathNormalize src).data).filter keepSeg
  let ts := (splitOnChar '/' (pathNormalize dst).data).filter keepSeg
  let rec dropCommon : List (List Char) → List (List Char) →
      List (List Char) × List (List Char)
    | a :: as, b :: bs => if a = b then dropCommon as bs else (a :: as, b :: bs)
    | as, bs => (as, bs)
  let (fr, tr) := dropCommon fs ts
  ⟨joinWith '/' (fr.map (fun _ => ['.', '.']) ++ tr)⟩

/-! ## Error and file-system model -/

/-- The server's `CUIError`: an error code, a human message and an HTTP
status. -/
structure CUIError where
  code : String
  message : String
  status : Nat
deriving DecidableEq, Repr

/-- Metadata and content of one file in the modelled file system. -/
structure FileData where
  content : List Nat
  mtime : String
deriving DecidableEq, Repr

/-- One entry of a directory listing (the `fs.Dirent` data the service
consumes). -/
structure DirEnt where
  name : String
  isDir : Bool
deriving DecidableEq, Repr

/-- Listing and metadata of one directory in the modelled file system. -/
structure DirNode where
  entries : List DirEnt
  mtime : String
deriving DecidableEq, Repr

/-- A snapshot of the file system: files keyed by absolute path, and
directories keyed by absolute path with their listings. -/
structure FileSys where
  files : List (String × FileData)
  dirs : List (String × DirNode)
deriving DecidableEq, Repr

/-- A primitive file-system access performed by the service, for frame
and no-touch reasoning. -/
inductive FsEvent where
  | statE (p : String)
  | readdirE (p : String)
  | readE (p : String)
  | writeE (p : String) (content : List Nat)
  | unlinkE (p : String)
deriving DecidableEq, Repr

/-- Result of `fs.stat` in the model: a directory, a file with its data,
or `ENOENT`. -/
inductive StatResult where
  | dir (n : DirNode)
  | file (d : FileData)
  | enoent
deriving DecidableEq, Repr

/-- Stat a path against the file-system snapshot. -/
def FileSys.stat (fs : FileSys) (p : String) : StatResult :=
  match fs.dirs.lookup p with
  | some n => .dir n
  | none =>
    match fs.files.lookup p with
    | some d => .file d
    | none => .enoent

/-- Whether a path exists (Node `existsSync`). -/
def FileSys.existsAt (fs : FileSys) (p : String) : Bool :=
  !(fs.stat p = .enoent)

/-- Write a file (create or overwrite), as `fs.writeFile`. -/
def FileSys.write (fs : FileSys) (p : String) (content : List Nat) (mtime : String) :
    FileSys :=
  ⟨(p, ⟨content, mtime⟩) :: fs.files, fs.dirs⟩

/-- Remove a file, as `fs.unlink`. -/
def FileSys.unlink (fs : FileSys) (p : String) : FileSys :=
  ⟨fs.files.filter (fun kv => !(kv.1 = p)), fs.dirs⟩

/-- Errors raised by the modelled Node `fs` primitives and mapped by the
service's catch blocks. -/
inductive NodeErr where
  | enoent
  | eacces
deriving DecidableEq, Repr

/-! ## FileSystemService -/

/-- Configuration of `FileSystemService`: maximum file size and optional
allowed base paths (empty means all paths allowed). -/
structure FSConfig where
  maxFileSize : Nat
  allowedBasePaths : List String
deriving DecidableEq, Repr

/-- The service's constructor defaults: 10MB, all paths allowed. -/
def defaultFSConfig : FSConfig := ⟨10 * 1024 * 1024, []⟩

/-- Per-segment security checks of `validatePath`, in source order:
hidden prefix, null byte, invalid characters. -/
def segError (seg : String) : Option CUIError :=
  if jsStartsWith seg "." then
    some ⟨"INVALID_PATH", "Path contains hidden files/directories", 400⟩
  else if strHasChar seg nullChar then
    some ⟨"INVALID_PATH", "Path contains null bytes", 400⟩
  else if hasInvalidChar seg then
    some ⟨"INVALID_PATH", "Path contains invalid characters", 400⟩
  else none

/-- Scan of the normalized path's segments; empty segments are skipped,
the first violating segment yields its error. -/
def checkSegments : List String → Option CUIError
  | [] => none
  | seg :: rest =>
    if seg = "" then checkSegments rest
    else
      match segError seg with
      | some e => some e
      | none => checkSegments rest

/-- The segments of a normalized path, split on the path separator. -/
def pathSegments (p : String) : List String :=
  (splitOnChar '/' p.data).map (fun s => ⟨s⟩)

/-- FileSystemService.validatePath: require an absolute path, reject any
`..` substring before normalization, normalize, check allowed base paths,
then check every segment for hidden names, null bytes and invalid
characters. -/
def validatePath (cfg : FSConfig) (requestedPath : String) : Except CUIError String :=
  if !(pathIsAbsolute requestedPath) then
    .error ⟨"INVALID_PATH", "Path must be absolute", 400⟩
  else if jsIncludes requestedPath ".." then
    .error ⟨"PATH_TRAVERSAL_DETECTED", "Invalid path: path traversal detected", 400⟩
  else if !(cfg.allowedBasePaths = []) &&
      !(cfg.allowedBasePaths.any
        (fun basePath => jsStartsWith (pathNormalize requestedPath) basePath)) then
    .error ⟨"PATH_NOT_ALLOWED", "Path is outside allowed directories", 403⟩
  else
    match checkSegments (pathSegments (pathNormalize requestedPath)) with
    | some e => .error e
    | none => .ok (pathNormalize requestedPath)

/-- FileSystemService.isValidUtf8: reject null bytes and control
characters other than tab, newline and carriage return. -/
def isValidUtf8 (content : String) : Bool :=
  if strHasChar content nullChar then false
  else
    !(content.data.any (fun c =>
      let cc := c.toNat
      (1 ≤ cc ∧ cc ≤ 8) ∨ (11 ≤ cc ∧ cc ≤ 12) ∨ (14 ≤ cc ∧ cc ≤ 31)))

/-- Byte-to-character reading of stored file content, modelling the
`utf-8` decode performed by `fs.readFile(path, 'utf-8')` at the depth the
service's checks inspect it. -/
def decodeContent (bytes : List Nat) : String :=
  ⟨bytes.map (fun b => Char.ofNat b)⟩

/-- Character-level encode, inverse of `decodeContent`, for content the
routes construct. -/
def encodeContent (s : String) : List Nat :=
  s.data.map (fun c => c.toNat)

/-- FileSystemService.getMimeType's extension table. -/
def mimeTypes : List (String × String) :=
  [(".txt", "text/plain"), (".md", "text/markdown"), (".html", "text/html"),
   (".css", "text/css"), (".js", "text/javascript"), (".ts", "text/typescript"),
   (".json", "application/json"), (".xml", "application/xml"),
   (".yaml", "text/yaml"), (".yml", "text/yaml"),
   (".jpg", "image/jpeg"), (".jpeg", "image/jpeg"), (".png", "image/png"),
   (".gif", "image/gif"), (".svg", "image/svg+xml"), (".webp", "image/webp"),
   (".ico", "image/x-icon"),
   (".pdf", "application/pdf"), (".doc", "application/msword"),
   (".docx", "application/vnd.openxmlformats-officedocument.wordprocessingml.document"),
   (".xls", "application/vnd.ms-excel"),
   (".xlsx", "application/vnd.openxmlformats-officedocument.spreadsheetml.sheet"),
   (".ppt", "application/vnd.ms-powerpoint"),
   (".pptx", "application/vnd.openxmlformats-officedocument.presentationml.presentation"),
   (".zip", "application/zip"), (".tar", "application/x-tar"),
   (".gz", "application/gzip"), (".rar", "application/x-rar-compressed"),
   (".7z", "application/x-7z-compressed"),
   (".mp3", "audio/mpeg"), (".wav", "audio/wav"), (".mp4", "video/mp4"),
   (".avi", "video/x-msvideo"), (".mov", "video/quicktime"),
   (".py", "text/x-python"), (".java", "text/x-java"), (".c", "text/x-c"),
   (".cpp", "text/x-c++"), (".rs", "text/x-rust"), (".go", "text/x-go"),
   (".rb", "text/x-ruby"), (".php", "text/x-php"), (".sh", "application/x-sh"),
   (".sql", "application/sql")]

/-- FileSystemService.getMimeType: MIME type from the lowercased file
extension, defaulting to a binary stream. -/
def getMimeType (filePath : String) : String :=
  ((mimeTypes.lookup (pathExtname filePath).toLower).getD "application/octet-stream")

/-- One result entry of a directory listing. -/
structure FileSystemEntry where
  name : String
  type : String
  size : Option Nat
  lastModified : String
deriving DecidableEq, Repr

/-- Result of `listDirectory`. -/
structure ListDirResult where
  path : String
  entries : List FileSystemEntry
  total : Nat
deriving DecidableEq, Repr

/-- Entry comparator used when sorting listings: directories first, then
by name (locale comparison modelled as code-point order). -/
def entryLe (a b : FileSystemEntry) : Bool :=
  if !(a.type = b.type) then a.type = "directory"
  else decide (a.name.data.map (fun c => c.toNat) ≤ b.name.data.map (fun c => c.toNat))

/-- Insertion of one element into a sorted list, for the listing sort. -/
def insertLe (le : FileSystemEntry → FileSystemEntry → Bool) (x : FileSystemEntry) :
    List FileSystemEntry → List FileSystemEntry
  | [] => [x]
  | y :: ys => if le x y then x :: y :: ys else y :: insertLe le x ys

/-- Stable sort of listing entries. -/
def sortEntries (l : List FileSystemEntry) : List FileSystemEntry :=
  l.foldr (insertLe entryLe) []

/-- Load of gitignore rules: the `ignore` npm package is an external
collaborator, modelled by the parameter `igLib` taking the `.gitignore`
content that was read (when the file existed) to a predicate on relative
paths; the always-added `.git` rule is part of the parameter's meaning. -/
def loadGitignore (igLib : Option String → String → Bool) (fs : FileSys)
    (dirPath : String) : (String → Bool) × List FsEvent :=
  let gitignorePath := pathJoin dirPath ".gitignore"
  let content :=
    match fs.files.lookup gitignorePath with
    | some d => some (decodeContent d.content)
    | none => none
  (igLib content, [.readE gitignorePath])

/-- FileSystemService.listDirectoryFlat: read the directory, skip ignored
names, stat each entry. -/
def listDirectoryFlat (fs : FileSys) (ig : Option (String → Bool)) (dirPath : String) :
    Except NodeErr (List FileSystemEntry) × List FsEvent :=
  match fs.dirs.lookup dirPath with
  | none => (.error .enoent, [.readdirE dirPath])
  | some node =>
    let step := fun (acc : Except NodeErr (List FileSystemEntry) × List FsEvent)
        (dirent : DirEnt) =>
      match acc with
      | (.error e, evs) => (.error e, evs)
      | (.ok entries, evs) =>
        if (match ig with | some f => f dirent.name | none => false) then (.ok entries, evs)
        else
          let fullPath := pathJoin dirPath dirent.name
          match fs.stat fullPath with
          | .enoent => (.error .enoent, evs ++ [.statE fullPath])
          | .file d =>
            (.ok (entries ++ [⟨dirent.name, if dirent.isDir then "directory" else "file",
              if !dirent.isDir then some d.content.length else none, d.mtime⟩]),
             evs ++ [.statE fullPath])
          | .dir n =>
            (.ok (entries ++ [⟨dirent.name, if dirent.isDir then "directory" else "file",
              if !dirent.isDir then none else none, n.mtime⟩]),
             evs ++ [.statE fullPath])
    node.entries.foldl step (.ok [], [.readdirE dirPath])

/-- FileSystemService.listDirectoryRecursive's traverse.  The fuel bounds
the directory nesting depth; the caller passes one more than the number
of directory entries in the snapshot, which bounds any chain of
successful lookups. -/
def listDirTraverse (fs : FileSys) (ig : Option (String → Bool)) (basePath : String) :
    Nat → String → Except NodeErr (List FileSystemEntry) × List FsEvent
  | 0, currentPath => (.error .enoent, [.readdirE currentPath])
  | fuel + 1, currentPath =>
    match fs.dirs.lookup currentPath with
    | none => (.error .enoent, [.readdirE currentPath])
    | some node =>
      let step := fun (acc : Except NodeErr (List FileSystemEntry) × List FsEvent)
          (dirent : DirEnt) =>
        match acc with
        | (.error e, evs) => (.error e, evs)
        | (.ok entries, evs) =>
          let fullPath := pathJoin currentPath dirent.name
          let relativePath := pathRelative basePath fullPath
          if (match ig with | some f => f relativePath | none => false) then
            (.ok entries, evs)
          else
            match fs.stat fullPath with
            | .enoent => (.error .enoent, evs ++ [.statE fullPath])
            | .file d =>
              (.ok (entries ++ [⟨relativePath,
                 if dirent.isDir then "directory" else "file",
                 if !dirent.isDir then some d.content.length else none, d.mtime⟩]),
               evs ++ [.statE fullPath])
            | .dir n =>
              let self : FileSystemEntry :=
                ⟨relativePath, if dirent.isDir then "directory" else "file",
                 if !dirent.isDir then none else none, n.mtime⟩
              if dirent.isDir then
                match listDirTraverse fs ig basePath fuel fullPath with
                | (.error e, evs2) => (.error e, evs ++ [.statE fullPath] ++ evs2)
                | (.ok sub, evs2) =>
                  (.ok (entries ++ [self] ++ sub), evs ++ [.statE fullPath] ++ evs2)
              else (.ok (entries ++ [self]), evs ++ [.statE fullPath])
      node.entries.foldl step (.ok [], [.readdirE currentPath])

/-- Mapping of Node errors performed by the catch block of
`listDirectory`. -/
def mapListDirErr (requestedPath : String) : NodeErr → CUIError
  | .enoent => ⟨"PATH_NOT_FOUND", "Path not found: " ++ requestedPath, 404⟩
  | .eacces => ⟨"ACCESS_DENIED", "Access denied to path: " ++ requestedPath, 403⟩

/-- FileSystemService.listDirectory: validate the path, require a
directory, optionally load gitignore rules, list (flat or recursive) and
sort. -/
def listDirectory (cfg : FSConfig) (igLib : Option String → String → Bool)
    (fs : FileSys) (requestedPath : String) (recursive respectGitignore : Bool) :
    Except CUIError ListDirResult × List FsEvent :=
  match validatePath cfg requestedPath with
  | .error e => (.error e, [])
  | .ok safePath =>
    match fs.stat safePath with
    | .enoent => (.error ⟨"PATH_NOT_FOUND", "Path not found: " ++ requestedPath, 404⟩,
                  [.statE safePath])
    | .file _ => (.error ⟨"NOT_A_DIRECTORY", "Path is not a directory: " ++ requestedPath, 400⟩,
                  [.statE safePath])
    | .dir _ =>
      let (ig, ev1) : Option (String → Bool) × List FsEvent :=
        if respectGitignore then
          let (f, evs) := loadGitignore igLib fs safePath
          (some f, evs)
        else (none, [])
      let (res, ev2) :=
        if recursive then listDirTraverse fs ig safePath (fs.dirs.length + 1) safePath
        else listDirectoryFlat fs ig safePath
      match res with
      | .error ne => (.error (mapListDirErr requestedPath ne), [.statE safePath] ++ ev1 ++ ev2)
      | .ok entries =>
        let sorted := sortEntries entries
        (.ok ⟨safePath, sorted, sorted.length⟩, [.statE safePath] ++ ev1 ++ ev2)

/-- Result of `readFile`. -/
structure ReadFileResult where
  path : String
  content : String
  size : Nat
  lastModified : String
  encoding : String
deriving DecidableEq, Repr

/-- FileSystemService.readFile: validate, require a file within the size
limit, read and require text content. -/
def readFile (cfg : FSConfig) (fs : FileSys) (requestedPath : String) :
    Except CUIError ReadFileResult × List FsEvent :=
  match validatePath cfg requestedPath with
  | .error e => (.error e, [])
  | .ok safePath =>
    match fs.stat safePath with
    | .enoent => (.error ⟨"FILE_NOT_FOUND", "File not found: " ++ requestedPath, 404⟩,
                  [.statE safePath])
    | .dir _ => (.error ⟨"NOT_A_FILE", "Path is not a file: " ++ requestedPath, 400⟩,
                 [.statE safePath])
    | .file d =>
      if d.content.length > cfg.maxFileSize then
        (.error ⟨"FILE_TOO_LARGE",
          "File size (" ++ natToStr d.content.length ++
          " bytes) exceeds maximum allowed size (" ++ natToStr cfg.maxFileSize ++ " bytes)",
          400⟩, [.statE safePath])
      else
        let content := decodeContent d.content
        if !(isValidUtf8 content) then
          (.error ⟨"BINARY_FILE", "File appears to be binary or not valid UTF-8", 400⟩,
           [.statE safePath, .readE safePath])
        else
          (.ok ⟨safePath, content, d.content.length, d.mtime, "utf-8"⟩,
           [.statE safePath, .readE safePath])

/-- Result of `downloadFile`. -/
structure DownloadFileResult where
  buffer : List Nat
  mimeType : String
  filename : String
  size : Nat
  lastModified : String
deriving DecidableEq, Repr

/-- FileSystemService.downloadFile: validate, require a file within the
size limit, read its bytes, derive MIME type and filename. -/
def downloadFile (cfg : FSConfig) (fs : FileSys) (requestedPath : String) :
    Except CUIError DownloadFileResult × List FsEvent :=
  match validatePath cfg requestedPath with
  | .error e => (.error e, [])
  | .ok safePath =>
    match fs.stat safePath with
    | .enoent => (.error ⟨"FILE_NOT_FOUND", "File not found: " ++ requestedPath, 404⟩,
                  [.statE safePath])
    | .dir _ => (.error ⟨"NOT_A_FILE", "Path is not a file: " ++ requestedPath, 400⟩,
                 [.statE safePath])
    | .file d =>
      if d.content.length > cfg.maxFileSize then
        (.error ⟨"FILE_TOO_LARGE",
          "File size (" ++ natToStr d.content.length ++
          " bytes) exceeds maximum allowed size (" ++ natToStr cfg.maxFileSize ++ " bytes)",
          400⟩, [.statE safePath])
      else
        (.ok ⟨d.content, getMimeType safePath, pathBasename safePath,
              d.content.length, d.mtime⟩,
         [.statE safePath, .readE safePath])

/-- Result of `uploadFile`. -/
structure UploadResult where
  path : String
  size : Nat
deriving DecidableEq, Repr

/-- The timestamp-suffixed filename used when the upload destination
already holds a file of the requested name. -/
def timestampedName (filename : String) (now : Nat) : String :=
  let ext := pathExtname filename
  let nameWithoutExt := pathBasenameExt filename ext
  nameWithoutExt ++ "." ++ natToStr now ++ ext

/-- FileSystemService.uploadFile: validate the filename and destination,
then write the buffer, diverting to a timestamp-suffixed name when the
requested name already exists. -/
def uploadFile (cfg : FSConfig) (fs : FileSys) (destinationPath : String)
    (buffer : List Nat) (filename : String) (now : Nat) :
    Except CUIError UploadResult × FileSys × List FsEvent :=
  if !(pathBasename filename = filename) then
    (.error ⟨"INVALID_FILENAME", "Filename must not contain path separators", 400⟩, fs, [])
  else if strHasChar filename nullChar then
    (.error ⟨"INVALID_FILENAME", "Filename contains null bytes", 400⟩, fs, [])
  else if hasInvalidChar filename then
    (.error ⟨"INVALID_FILENAME", "Filename contains invalid characters", 400⟩, fs, [])
  else if jsStartsWith filename "." then
    (.error ⟨"INVALID_FILENAME", "Hidden files are not allowed", 400⟩, fs, [])
  else if buffer.length > cfg.maxFileSize then
    (.error ⟨"FILE_TOO_LARGE",
      "File size (" ++ natToStr buffer.length ++
      " bytes) exceeds maximum allowed size (" ++ natToStr cfg.maxFileSize ++ " bytes)",
      413⟩, fs, [])
  else
    match validatePath cfg destinationPath with
    | .error e => (.error e, fs, [])
    | .ok safeDestPath =>
      match fs.stat safeDestPath with
      | .enoent =>
        (.error ⟨"PATH_NOT_FOUND", "Destination path not found: " ++ destinationPath, 404⟩,
         fs, [.statE safeDestPath])
      | .file _ =>
        (.error ⟨"NOT_A_DIRECTORY", "Destination path is not a directory: " ++ destinationPath,
          400⟩, fs, [.statE safeDestPath])
      | .dir _ =>
        let requestedFinal := pathJoin safeDestPath filename
        let finalPath :=
          if fs.existsAt requestedFinal then
            pathJoin safeDestPath (timestampedName filename now)
          else requestedFinal
        (.ok ⟨finalPath, buffer.length⟩,
         fs.write finalPath buffer (natToStr now),
         [.statE safeDestPath, .statE requestedFinal, .writeE finalPath buffer])

/-- FileSystemService.deleteFile: validate, require an existing file,
unlink it. -/
def deleteFile (cfg : FSConfig) (fs : FileSys) (filePath : String) :
    Except CUIError Unit × FileSys × List FsEvent :=
  match validatePath cfg filePath with
  | .error e => (.error e, fs, [])
  | .ok safePath =>
    match fs.stat safePath with
    | .enoent => (.error ⟨"FILE_NOT_FOUND", "File not found", 404⟩, fs, [.statE safePath])
    | .dir _ => (.error ⟨"NOT_A_FILE", "Path is not a file", 400⟩, fs, [.statE safePath])
    | .file _ =>
      (.ok (), fs.unlink safePath, [.statE safePath, .unlinkE safePath])

/-! ## Conversation data model -/

/-- One stored conversation message; the routes inspect only the working
directory of the first message and otherwise thread messages opaquely. -/
structure ConversationMessage where
  uuid : String
  cwd : Option String
  raw : String
deriving DecidableEq, Repr

/-- The `system:init` event fields returned by a successful spawn. -/
structure SystemInit where
  session_id : String
  cwd : String
  tools : List String
  mcp_servers : List String
  model : String
  permissionMode : Option String
  apiKeySource : Option String
deriving DecidableEq, Repr

/-- Body of a start-conversation request. -/
structure StartRequest where
  workingDirectory : Option String
  initialPrompt : Option String
  model : Option String
  permissionMode : Option String
  resumedSessionId : Option String
deriving DecidableEq, Repr

/-- The configuration handed to the process manager: the request body
extended with inherited permission mode and previous messages. -/
structure ConversationConfig where
  workingDirectory : Option String
  initialPrompt : Option String
  model : Option String
  permissionMode : Option String
  resumedSessionId : Option String
  previousMessages : Option (List ConversationMessage)
deriving DecidableEq, Repr

/-- Session-metadata record; only the fields the conversation routes
touch are modelled. -/
structure SessionInfo where
  permission_mode : Option String
  continuation_session_id : Option String
deriving DecidableEq, Repr

/-- A partial update of a session-metadata record. -/
structure SessionInfoUpdate where
  permission_mode : Option String
  continuation_session_id : Option String
deriving DecidableEq, Repr

/-- Keep an optional field unless the update provides it. -/
def optOr (a b : Option String) : Option String :=
  match a with
  | some x => some x
  | none => b

/-- Modelled from the spec: SessionInfoService.updateSessionInfo applies
the provided partial fields to the stored record for the session,
creating the record when missing ("`getSessionInfo`/`updateSessionInfo`
(sessionId, partial fields)"). -/
def updateSessionStore (store : List (String × SessionInfo)) (sid : String)
    (u : SessionInfoUpdate) : List (String × SessionInfo) :=
  match store.lookup sid with
  | some si =>
    store.map (fun kv =>
      if kv.1 = sid then
        (sid, (⟨optOr u.permission_mode si.permission_mode,
               optOr u.continuation_session_id si.continuation_session_id⟩ : SessionInfo))
      else kv)
  | none => (sid, ⟨u.permission_mode, u.continuation_session_id⟩) :: store

/-- The recognized permission modes. -/
def validModes : List String := ["acceptEdits", "bypassPermissions", "default", "plan"]

/-- Context stored when registering an active (resumed) session with the
status tracker. -/
structure RegisterContext where
  initialPrompt : Option String
  workingDirectory : String
  model : String
  inheritedMessages : Option (List ConversationMessage)
deriving DecidableEq, Repr

/-- An externally observable effect of the start handler. -/
inductive StartEffect where
  | spawnCall (config : ConversationConfig)
  | sessionUpdate (sessionId : String) (u : SessionInfoUpdate)
  | registerSession (streamingId : String) (sessionId : String) (ctx : RegisterContext)
deriving DecidableEq, Repr

/-- Environment of the start handler: history reads, the session store
and the process manager's spawn, all external collaborators. -/
structure StartEnv where
  fetchConversation : String → Except CUIError (List ConversationMessage)
  sessionStore : List (String × SessionInfo)
  spawn : ConversationConfig → Except CUIError (String × SystemInit)

/-- Response body of a successful start. -/
structure StartResponse where
  streamingId : String
  streamUrl : String
  sessionId : String
  cwd : String
  tools : List String
  mcp_servers : List String
  model : String
  permissionMode : Option String
  apiKeySource : Option String
deriving DecidableEq, Repr

/-- Previous messages fetched on resume; a history failure is caught and
treated as no previous messages. -/
def fetchedPrev (env : StartEnv) (req : StartRequest) : List ConversationMessage :=
  match req.resumedSessionId with
  | some rid =>
    match env.fetchConversation rid with
    | .ok msgs => msgs
    | .error _ => []
  | none => []

/-- Permission mode inherited from the resumed session's metadata when
the request supplies none; a metadata failure is caught and treated as no
inherited mode. -/
def inheritedMode (env : StartEnv) (req : StartRequest) : Option String :=
  match req.resumedSessionId with
  | some rid =>
    if tsTruthy req.permissionMode then none
    else
      match env.sessionStore.lookup rid with
      | some si => si.permission_mode
      | none => none
  | none => none

/-- The conversation configuration assembled by the start route before
spawning. -/
def builtConfig (env : StartEnv) (req : StartRequest) : ConversationConfig :=
  let previousMessages := fetchedPrev env req
  ⟨req.workingDirectory, req.initialPrompt, req.model,
   tsOr req.permissionMode (inheritedMode env req), req.resumedSessionId,
   if previousMessages.length > 0 then some previousMessages else none⟩

/-- Response body assembled from a successful spawn's init event. -/
def startResponse (streamingId : String) (init : SystemInit) : StartResponse :=
  ⟨streamingId, "/api/stream/" ++ streamingId, init.session_id, init.cwd,
   init.tools, init.mcp_servers, init.model, init.permissionMode,
   init.apiKeySource⟩

/-- Resume bookkeeping after a successful spawn: linking the resumed
session to the new session id and registering the new session (with its
inherited messages) with the status tracker. -/
def resumeBookkeeping (env : StartEnv) (req : StartRequest) (streamingId : String)
    (init : SystemInit) : List (String × SessionInfo) × List StartEffect :=
  match req.resumedSessionId with
  | some rid =>
    (updateSessionStore env.sessionStore rid ⟨none, some init.session_id⟩,
     [StartEffect.spawnCall (builtConfig env req),
      .sessionUpdate rid ⟨none, some init.session_id⟩,
      .registerSession streamingId init.session_id
        ⟨req.initialPrompt, init.cwd, init.model,
         if (fetchedPrev env req).length > 0 then some (fetchedPrev env req) else none⟩])
  | none => (env.sessionStore, [StartEffect.spawnCall (builtConfig env req)])

/-- Permission-mode persistence after a successful spawn: when a mode was
determined for the conversation it is stored under the new session id. -/
def persistPermissionMode (env : StartEnv) (req : StartRequest) (init : SystemInit)
    (store1 : List (String × SessionInfo)) (effs1 : List StartEffect) :
    List (String × SessionInfo) × List StartEffect :=
  if tsTruthy (builtConfig env req).permissionMode then
    (updateSessionStore store1 init.session_id
       ⟨(builtConfig env req).permissionMode, none⟩,
     effs1 ++ [StartEffect.sessionUpdate init.session_id
       ⟨(builtConfig env req).permissionMode, none⟩])
  else (store1, effs1)

/-- POST /api/conversations/start: validate required fields and the
permission mode, assemble the configuration (fetching previous messages
and inherited permission mode on resume), spawn, then link the resumed
session, register it with the status tracker and persist the permission
mode.  Returns the response, the session store after the call and the
ordered effect trace. -/
def handleStart (env : StartEnv) (req : StartRequest) :
    Except CUIError StartResponse × List (String × SessionInfo) × List StartEffect :=
  if !(tsTruthy req.workingDirectory) then
    (.error ⟨"MISSING_WORKING_DIRECTORY", "workingDirectory is required", 400⟩,
     env.sessionStore, [])
  else if !(tsTruthy req.initialPrompt) then
    (.error ⟨"MISSING_INITIAL_PROMPT", "initialPrompt is required", 400⟩,
     env.sessionStore, [])
  else if tsTruthy req.permissionMode &&
      !(validModes.contains ((req.permissionMode).getD "")) then
    (.error ⟨"INVALID_PERMISSION_MODE",
      "permissionMode must be one of: acceptEdits, bypassPermissions, default, plan", 400⟩,
     env.sessionStore, [])
  else
    match env.spawn (builtConfig env req) with
    | .error e => (.error e, env.sessionStore, [.spawnCall (builtConfig env req)])
    | .ok (streamingId, init) =>
      let se := resumeBookkeeping env req streamingId init
      let se2 := persistPermissionMode env req init se.1 se.2
      (.ok (startResponse streamingId init), se2.1, se2.2)

/-! ## Process manager and stop route -/

/-- State of the process manager: the streaming ids that currently have a
live subprocess. -/
structure PMState where
  live : List String
deriving DecidableEq, Repr

/-- A process-level action taken while stopping. -/
inductive PMEffect where
  | terminate (streamingId : String)
deriving DecidableEq, Repr

/-- Modelled from the spec: ClaudeProcessManager.stopConversation is not
under the available sources; per the spec it "returns whether a live
process existed to stop" and "stopping an already-stopped or unknown id
returns false, never errors", the graceful-then-forced signalling being
collapsed into one terminate action. -/
def stopConversation (pm : PMState) (streamingId : String) :
    Bool × PMState × List PMEffect :=
  if pm.live.contains streamingId then
    (true, ⟨pm.live.filter (fun s => !(s = streamingId))⟩, [.terminate streamingId])
  else (false, pm, [])

/-- POST /api/conversations/:streamingId/stop: delegate to the process
manager and answer `{ success }` with the manager's boolean. -/
def handleStop (pm : PMState) (streamingId : String) :
    Except CUIError (List (String × Bool)) × PMState × List PMEffect :=
  let (success, pm2, effs) := stopConversation pm streamingId
  (.ok [("success", success)], pm2, effs)

/-! ## Status tracker and list route -/

/-- One active conversation registered with the status tracker. -/
structure ActiveSession where
  streamingId : String
  sessionId : String
  initialPrompt : Option String
  workingDirectory : String
  model : String
  inheritedMessages : Option (List ConversationMessage)
deriving DecidableEq, Repr

/-- In-memory state of the ConversationStatusManager. -/
structure TrackerState where
  active : List ActiveSession
deriving DecidableEq, Repr

/-- Modelled from the spec: ConversationStatusManager.getConversationStatus
is not under the available sources.  Its in-source callers (the list
route, which attaches the streaming id exactly when the result equals
"ongoing", and the web client) only ever compare the result against
"ongoing", so this model answers "ongoing" for a session with a live
registration; the value for all other sessions is a modelling choice
("completed") that the theorems below do not depend on — they treat the
function as opaque apart from the comparison with "ongoing". -/
def getConversationStatus (t : TrackerState) (sessionId : String) : String :=
  if t.active.any (fun a => a.sessionId = sessionId) then "ongoing" else "completed"

/-- Modelled from the spec: ConversationStatusManager.getStreamingId
answers `streamingIdFor(sessionId)` from the registered active
sessions. -/
def getStreamingId (t : TrackerState) (sessionId : String) : Option String :=
  match t.active.find? (fun a => a.sessionId = sessionId) with
  | some a => some a.streamingId
  | none => none

/-- A conversation summary as the list route reports it. -/
structure ConversationSummaryOut where
  sessionId : String
  summary : String
  status : String
  streamingId : Option String
  toolMetrics : Option String
deriving DecidableEq, Repr

/-- A conversation as the durable history store returns it. -/
structure HistoryConversation where
  sessionId : String
  summary : String
deriving DecidableEq, Repr

/-- Result of the history store's listConversations. -/
structure HistoryListResult where
  conversations : List HistoryConversation
  total : Nat
deriving DecidableEq, Repr

/-- The optimistic summary presented for an active session that history
has not recorded yet. -/
def activeToSummary (a : ActiveSession) : ConversationSummaryOut :=
  ⟨a.sessionId, "", "ongoing", some a.streamingId, none⟩

/-- Modelled from the spec: ConversationStatusManager's
getConversationsNotInHistory answers "conversations currently active but
not yet durably recorded by history": the active sessions whose session
id is not among the given existing ids. -/
def getConversationsNotInHistory (t : TrackerState) (existingSessionIds : List String) :
    List ConversationSummaryOut :=
  (t.active.filter (fun a => !(existingSessionIds.contains a.sessionId))).map activeToSummary

/-- Annotation of one history conversation performed by the list route:
tracker status, streaming id when ongoing, tool metrics when present. -/
def annotateConversation (t : TrackerState) (metrics : String → Option String)
    (c : HistoryConversation) : ConversationSummaryOut :=
  let status := getConversationStatus t c.sessionId
  let m := metrics c.sessionId
  if status = "ongoing" then
    match getStreamingId t c.sessionId with
    | some sid => ⟨c.sessionId, c.summary, status, some sid, m⟩
    | none => ⟨c.sessionId, c.summary, status, none, m⟩
  else ⟨c.sessionId, c.summary, status, none, m⟩

/-- Response of the list route. -/
structure ListConversationsResponse where
  conversations : List ConversationSummaryOut
  total : Nat
deriving DecidableEq, Repr

/-- GET /api/conversations: annotate the history result with live status
and merge in active conversations history has not recorded, adjusting the
total.  The session-info sync performed afterwards does not shape the
response and is omitted. -/
def handleListConversations (historyResult : HistoryListResult) (t : TrackerState)
    (metrics : String → Option String) : ListConversationsResponse :=
  let conversationsWithStatus :=
    historyResult.conversations.map (annotateConversation t metrics)
  let existingSessionIds := conversationsWithStatus.map (fun c => c.sessionId)
  let conversationsNotInHistory := getConversationsNotInHistory t existingSessionIds
  let allConversations := conversationsWithStatus ++ conversationsNotInHistory
  ⟨allConversations, historyResult.total + conversationsNotInHistory.length⟩

/-! ## Download routes -/

/-- Conversation metadata as the history store returns it. -/
structure ConvMetadata where
  projectPath : Option String
  summary : String
deriving DecidableEq, Repr

/-- History-store interface used by the download routes. -/
structure HistoryEnv where
  getConversationMetadata : String → Option ConvMetadata
  fetchConversation : String → Except CUIError (List ConversationMessage)

/-- Query of GET /api/filesystem/download. -/
structure DownloadQuery where
  path : Option String
  sessionId : Option String
deriving DecidableEq, Repr

/-- The conversation working directory derivation shared by the download
routes: the first message's cwd, falling back to the metadata project
path. -/
def conversationCwdOf (md : ConvMetadata) (msgs : List ConversationMessage) :
    Option String :=
  match msgs with
  | [] => none
  | m :: _ => tsOr m.cwd md.projectPath

/-- GET /api/filesystem/download: resolve the conversation's working
directory, reject requests outside it with 403 before reading anything,
then delegate to FileSystemService.downloadFile. -/
def handleFileDownload (henv : HistoryEnv) (cfg : FSConfig) (fs : FileSys)
    (q : DownloadQuery) : Except CUIError DownloadFileResult × List FsEvent :=
  if !(tsTruthy q.path) then
    (.error ⟨"MISSING_PATH", "path query parameter is required", 400⟩, [])
  else if !(tsTruthy q.sessionId) then
    (.error ⟨"MISSING_SESSION_ID", "sessionId query parameter is required", 400⟩, [])
  else
    match henv.getConversationMetadata ((q.sessionId).getD "") with
    | none => (.error ⟨"CONVERSATION_NOT_FOUND", "Conversation not found", 404⟩, [])
    | some md =>
      match henv.fetchConversation ((q.sessionId).getD "") with
      | .error e => (.error e, [])
      | .ok msgs =>
        if msgs.length = 0 then
          (.error ⟨"NO_MESSAGES", "No messages found in conversation", 404⟩, [])
        else if !(tsTruthy (conversationCwdOf md msgs)) then
          (.error ⟨"NO_CWD", "Could not determine conversation working directory", 400⟩, [])
        else if !(jsStartsWith (pathNormalize ((q.path).getD ""))
            (pathNormalize ((conversationCwdOf md msgs).getD ""))) then
          (.error ⟨"PATH_OUTSIDE_CWD",
            "Download is restricted to files within the conversation working directory",
            403⟩, [])
        else downloadFile cfg fs ((q.path).getD "")

/-- Body and path parameter of POST /api/conversations/:sessionId/download-files. -/
structure BulkDownloadRequest where
  sessionId : String
  files : Option (List String)
deriving DecidableEq, Repr

/-- One archive member of the bulk download: name inside the ZIP and
content. -/
structure ArchiveEntry where
  name : String
  content : List Nat
deriving DecidableEq, Repr

/-- The failure-metadata JSON appended to the archive when some files
could not be added; the exact serialization is irrelevant to the routes'
guarantees, the paths and messages it carries are. -/
def failureMetadataJson (sessionId : String)
    (successfulFiles : List String) (failedFiles : List (String × String)) : String :=
  "\x7b sessionId: " ++ sessionId ++
  ", successfulFiles: " ++ String.intercalate ", " successfulFiles ++
  ", failedFiles: " ++
  String.intercalate ", " (failedFiles.map (fun pe => pe.1 ++ ": " ++ pe.2)) ++ " \x7d"

/-- Per-file download loop of the bulk route: each file is fetched and
appended to the archive under its path relative to the working directory;
failures are collected without aborting. -/
def bulkCollect (cfg : FSConfig) (fs : FileSys) (normalizedCwd : String) :
    List String → List ArchiveEntry × List String × List (String × String) × List FsEvent
  | [] => ([], [], [], [])
  | filePath :: rest =>
    let (entries, succ, failed, evs) := bulkCollect cfg fs normalizedCwd rest
    match downloadFile cfg fs filePath with
    | (.ok fd, evs0) =>
      (⟨pathRelative normalizedCwd filePath, fd.buffer⟩ :: entries,
       filePath :: succ, failed, evs0 ++ evs)
    | (.error e, evs0) =>
      (entries, succ, (filePath, e.message) :: failed, evs0 ++ evs)

/-- POST /api/conversations/:sessionId/download-files: validate, resolve
the conversation working directory, reject the whole request with 403
when any file falls outside it (before reading anything), otherwise
archive the files, appending failure metadata when needed. -/
def handleBulkDownload (henv : HistoryEnv) (cfg : FSConfig) (fs : FileSys)
    (r : BulkDownloadRequest) : Except CUIError (List ArchiveEntry) × List FsEvent :=
  if r.sessionId = "" ∨ r.sessionId.data.all (fun c => c.isWhitespace) then
    (.error ⟨"MISSING_SESSION_ID", "sessionId is required", 400⟩, [])
  else
    match r.files with
    | none => (.error ⟨"MISSING_FILES", "files array is required and must not be empty", 400⟩, [])
    | some files =>
      if files.length = 0 then
        (.error ⟨"MISSING_FILES", "files array is required and must not be empty", 400⟩, [])
      else
        match henv.getConversationMetadata r.sessionId with
        | none => (.error ⟨"CONVERSATION_NOT_FOUND", "Conversation not found", 404⟩, [])
        | some md =>
          match henv.fetchConversation r.sessionId with
          | .error e => (.error e, [])
          | .ok msgs =>
            if msgs.length = 0 then
              (.error ⟨"NO_MESSAGES", "No messages found in conversation", 404⟩, [])
            else if !(tsTruthy (conversationCwdOf md msgs)) then
              (.error ⟨"NO_CWD", "Could not determine conversation working directory", 400⟩, [])
            else if (files.filter (fun filePath => !(jsStartsWith (pathNormalize filePath)
                (pathNormalize ((conversationCwdOf md msgs).getD ""))))).length > 0 then
              (.error ⟨"FILES_OUTSIDE_CWD",
                "Some files are outside the conversation working directory: " ++
                String.intercalate ", " (files.filter
                  (fun filePath => !(jsStartsWith (pathNormalize filePath)
                    (pathNormalize ((conversationCwdOf md msgs).getD ""))))), 403⟩, [])
            else
              let col := bulkCollect cfg fs
                (pathNormalize ((conversationCwdOf md msgs).getD "")) files
              if col.2.1.length = 0 then
                (.error ⟨"NO_FILES_ADDED", "Failed to add any files to the archive", 500⟩,
                 col.2.2.2)
              else if col.2.2.1.length > 0 then
                (.ok (col.1 ++
                  [⟨"_download-metadata.json",
                    encodeContent (failureMetadataJson r.sessionId col.2.1 col.2.2.1)⟩]),
                 col.2.2.2)
              else (.ok col.1, col.2.2.2)

/-! ## Amended-claim predicates -/

/-- The path conditions on which the file-system operations reject a
request with HTTP 400 without touching the file system: relative paths,
`..` anywhere, null bytes, the characters `<>:|?*`, and hidden segments
(a segment starting with `.` other than a bare `.`, which normalization
removes). -/
def rejectedPath (p : String) : Prop :=
  pathIsAbsolute p = false ∨ jsIncludes p ".." = true ∨
  nullChar ∈ p.data ∨ (∃ c ∈ p.data, c ∈ invalidChars) ∨
  (∃ s ∈ splitOnChar '/' p.data, s.head? = some '.' ∧ ¬(s = ['.']))

instance (p : String) : Decidable (rejectedPath p) := by
  unfold rejectedPath; infer_instance

/-- Whether a start effect is a status-tracker registration. -/
def isRegister : StartEffect → Bool
  | .registerSession _ _ _ => true
  | _ => false

/-- The list-route annotation as the specification words it: each history
conversation carries the tracker's current status, and its streaming id
exactly when that status is "ongoing". -/
def specAnnotated (hist : HistoryListResult) (t : TrackerState)
    (metrics : String → Option String) : List ConversationSummaryOut :=
  hist.conversations.map (fun c =>
    ⟨c.sessionId, c.summary, getConversationStatus t c.sessionId,
     if getConversationStatus t c.sessionId = "ongoing" then getStreamingId t c.sessionId
     else none,
     metrics c.sessionId⟩)

/-- The active conversations whose session id does not appear in the
history result, as the specification words it. -/
def specActiveNotRecorded (hist : HistoryListResult) (t : TrackerState) :
    List ConversationSummaryOut :=
  (t.active.filter (fun a =>
    !((hist.conversations.map (fun c => c.sessionId)).contains a.sessionId))).map
    activeToSummary

/-! ## Concrete sample data for witnesses and counterexamples -/

/-- Sample init event for the C1 counterexample. -/
def initC1 : SystemInit := ⟨"sess1", "/w", [], [], "m1", none, none⟩

/-- Sample environment for the C1 counterexample. -/
def envC1 : StartEnv := ⟨fun _ => .ok [], [], fun _ => .ok ("st1", initC1)⟩

/-- Sample request with an empty-string permission mode, for the C1
counterexample. -/
def reqC1 : StartRequest := ⟨some "/w", some "hi", none, some "", none⟩

/-- Sample environment for the C1 witness. -/
def envC1w : StartEnv := ⟨fun _ => .ok [], [], fun _ => .ok ("st1", initC1)⟩

/-- Sample request missing its working directory, for the C1 witness. -/
def reqC1w : StartRequest := ⟨none, some "hi", none, none, none⟩

/-- Sample process-manager state for the C2 counterexample. -/
def pmC2 : PMState := ⟨["s1"]⟩

/-- Sample init event for the C5 witness. -/
def initC5 : SystemInit := ⟨"sessNew", "/w5", ["Bash"], [], "m5", none, none⟩

/-- Sample environment for the C5 witness: one prior session with one
message. -/
def envC5 : StartEnv :=
  ⟨fun rid => if rid = "old5" then .ok [⟨"u1", some "/w5", "hello"⟩] else .error ⟨"CONVERSATION_NOT_FOUND", "Conversation not found", 404⟩,
   [("old5", ⟨some "plan", none⟩)],
   fun _ => .ok ("st5", initC5)⟩

/-- Sample resume request for the C5 witness. -/
def reqC5 : StartRequest := ⟨some "/w5", some "go on", none, none, some "old5"⟩

/-- Sample init event for the C6 witness. -/
def initC6 : SystemInit := ⟨"sessNew6", "/w6", [], [], "m6", none, none⟩

/-- Sample environment for the C6 witness: the prior session stores a
permission mode to inherit. -/
def envC6 : StartEnv :=
  ⟨fun _ => .ok [], [("old6", ⟨some "acceptEdits", none⟩)],
   fun _ => .ok ("st6", initC6)⟩

/-- Sample resume request without a permission mode, for the C6 witness. -/
def reqC6 : StartRequest := ⟨some "/w6", some "resume it", none, none, some "old6"⟩

/-- Sample file system holding `/a/b`, for the C8 counterexample. -/
def fsC8 : FileSys := ⟨[("/a/b", ⟨[104, 105], "t0"⟩)], [("/a", ⟨[⟨"b", false⟩], "t0"⟩)]⟩

/-- Sample history environment for the C9 witness. -/
def henvC9 : HistoryEnv :=
  ⟨fun sid => if sid = "s9" then some ⟨some "/proj", "sum"⟩ else none,
   fun sid => if sid = "s9" then .ok [⟨"u1", some "/proj", "m"⟩] else .error ⟨"CONVERSATION_NOT_FOUND", "Conversation not found", 404⟩⟩

/-- Sample file system with a timestamp-name collision, for the C10
counterexample. -/
def fsC10 : FileSys :=
  ⟨[("/d/a.txt", ⟨[1], "t0"⟩), ("/d/a.100.txt", ⟨[2], "t0"⟩)], [("/d", ⟨[], "t0"⟩)]⟩

/-- Sample file system without collisions, for the C10 witness. -/
def fsC10w : FileSys := ⟨[("/d/other.txt", ⟨[7], "t0"⟩)], [("/d", ⟨[], "t0"⟩)]⟩

end CUI

namespace CUI

/-! ## Lemmas about splitOnChar -/

theorem splitOnChar_nil (c : Char) : splitOnChar c [] = [[]] := rfl

theorem splitOnChar_cons_sep (c : Char) (rest : List Char) :
    splitOnChar c (c :: rest) = [] :: splitOnChar c rest := by
  simp [splitOnChar]

theorem splitOnChar_cons_ne (c a : Char) (rest : List Char) (h : ¬(a = c)) :
    splitOnChar c (a :: rest) =
      (a :: (splitOnChar c rest).headD []) :: (splitOnChar c rest).tail := by
  simp [splitOnChar, h]

theorem splitOnChar_ne_nil (c : Char) (xs : List Char) : splitOnChar c xs ≠ [] := by
  cases xs with
  | nil => simp [splitOnChar]
  | cons a rest =>
    by_cases h : a = c
    · subst h; simp [splitOnChar_cons_sep]
    · simp [splitOnChar_cons_ne c a rest h]

theorem splitOnChar_exists_cons (c : Char) (xs : List Char) :
    ∃ s0 ss, splitOnChar c xs = s0 :: ss :=
  List.exists_cons_of_ne_nil (splitOnChar_ne_nil c xs)

theorem splitOnChar_headD_leading (c : Char) (xs : List Char) :
    (splitOnChar c xs).headD [] <+: xs := by
  induction xs with
  | nil => simp [splitOnChar]
  | cons a rest ih =>
    by_cases h : a = c
    · subst h; simp [splitOnChar_cons_sep]
    · simp only [splitOnChar_cons_ne c a rest h, List.headD_cons]
      exact List.cons_prefix_cons.mpr ⟨rfl, ih⟩

theorem mem_splitOnChar_contig (c : Char) (xs : List Char) (s : List Char)
    (hm : s ∈ splitOnChar c xs) : s <:+: xs := by
  induction xs with
  | nil => simp [splitOnChar] at hm; simp [hm]
  | cons a rest ih =>
    by_cases h : a = c
    · subst h
      rw [splitOnChar_cons_sep] at hm
      rcases List.mem_cons.mp hm with h1 | h2
      · simp [h1]
      · exact List.infix_cons (ih h2)
    · rw [splitOnChar_cons_ne c a rest h] at hm
      rcases List.mem_cons.mp hm with h1 | h2
      · subst h1
        exact (List.cons_prefix_cons.mpr ⟨rfl, splitOnChar_headD_leading c rest⟩).isInfix
      · exact List.infix_cons (ih (List.mem_of_mem_tail h2))

theorem sep_not_mem_of_mem_splitOnChar (c : Char) (xs : List Char) (s : List Char)
    (hm : s ∈ splitOnChar c xs) : c ∉ s := by
  induction xs generalizing s with
  | nil => simp [splitOnChar] at hm; simp [hm]
  | cons a rest ih =>
    obtain ⟨s0, ss, hr⟩ := splitOnChar_exists_cons c rest
    by_cases h : a = c
    · subst h
      rw [splitOnChar_cons_sep] at hm
      rcases List.mem_cons.mp hm with h1 | h2
      · simp [h1]
      · exact ih s h2
    · rw [splitOnChar_cons_ne c a rest h, hr] at hm
      rcases List.mem_cons.mp hm with h1 | h2
      · subst h1
        intro hmem
        rcases List.mem_cons.mp hmem with h3 | h4
        · exact h h3.symm
        · exact ih s0 (hr ▸ List.mem_cons_self s0 ss) (by simpa using h4)
      · exact ih s (hr ▸ List.mem_cons_of_mem s0 (by simpa using h2))

theorem mem_seg_of_mem (c : Char) (xs : List Char) (d : Char)
    (hd : d ∈ xs) (hne : ¬(d = c)) : ∃ s ∈ splitOnChar c xs, d ∈ s := by
  induction xs with
  | nil => simp at hd
  | cons a rest ih =>
    obtain ⟨s0, ss, hr⟩ := splitOnChar_exists_cons c rest
    rcases List.mem_cons.mp hd with h1 | h2
    · refine ⟨a :: (splitOnChar c rest).headD [], ?_, ?_⟩
      · rw [splitOnChar_cons_ne c a rest (by rw [← h1]; exact hne)]
        exact List.mem_cons_self _ _
      · rw [h1]; exact List.mem_cons_self _ _
    · rcases ih h2 with ⟨s, hs, hds⟩
      by_cases hac : a = c
      · subst hac
        exact ⟨s, by rw [splitOnChar_cons_sep]; exact List.mem_cons_of_mem _ hs, hds⟩
      · rw [hr] at hs
        rcases List.mem_cons.mp hs with h3 | h4
        · subst h3
          refine ⟨a :: s, ?_, List.mem_cons_of_mem a hds⟩
          rw [splitOnChar_cons_ne c a rest hac, hr]
          exact List.mem_cons_self _ _
        · refine ⟨s, ?_, hds⟩
          rw [splitOnChar_cons_ne c a rest hac, hr]
          exact List.mem_cons_of_mem _ (by simpa using h4)

theorem splitOnChar_single (c : Char) (xs : List Char) (h : c ∉ xs) :
    splitOnChar c xs = [xs] := by
  induction xs with
  | nil => rfl
  | cons a rest ih =>
    have hac : ¬(a = c) := fun he => h (he ▸ List.mem_cons_self a rest)
    have hr : c ∉ rest := fun hm => h (List.mem_cons_of_mem a hm)
    rw [splitOnChar_cons_ne c a rest hac, ih hr]
    rfl

theorem splitOnChar_append_sep (c : Char) (xs ys : List Char) :
    splitOnChar c (xs ++ c :: ys) = splitOnChar c xs ++ splitOnChar c ys := by
  induction xs with
  | nil => simp [splitOnChar_cons_sep, splitOnChar_nil]
  | cons a rest ih =>
    by_cases h : a = c
    · subst h
      simp only [List.cons_append, splitOnChar_cons_sep, ih, List.cons_append]
    · obtain ⟨s0, ss, hr⟩ := splitOnChar_exists_cons c rest
      simp only [List.cons_append, splitOnChar_cons_ne c a _ h, ih, hr,
        List.cons_append, List.headD_cons, List.tail_cons]

theorem joinWith_cons (c : Char) (s : List Char) (l : List (List Char)) (h : l ≠ []) :
    joinWith c (s :: l) = s ++ c :: joinWith c l := by
  match l with
  | [] => exact absurd rfl h
  | t :: ts => rfl

theorem splitOnChar_joinWith (c : Char) (l : List (List Char)) (hne : l ≠ [])
    (hfree : ∀ s ∈ l, c ∉ s) : splitOnChar c (joinWith c l) = l := by
  induction l with
  | nil => exact absurd rfl hne
  | cons s rest ih =>
    match rest with
    | [] =>
      show splitOnChar c s = [s]
      exact splitOnChar_single c s (hfree s (List.mem_cons_self s []))
    | t :: ts =>
      rw [joinWith_cons c s (t :: ts) (by simp)]
      rw [splitOnChar_append_sep]
      rw [ih (by simp) (fun x hx => hfree x (List.mem_cons_of_mem s hx))]
      rw [splitOnChar_single c s (hfree s (List.mem_cons_self s _))]
      rfl


/-! ## Lemmas about path normalization -/

theorem foldl_normStep (aar : Bool) (segs : List (List Char))
    (hdd : ∀ s ∈ segs, ¬(s = ['.', '.'])) (acc : List (List Char)) :
    segs.foldl (normStep aar) acc = (segs.filter keepSeg).reverse ++ acc := by
  induction segs generalizing acc with
  | nil => simp
  | cons s rest ih =>
    have hs := hdd s (List.mem_cons_self s rest)
    have hrest : ∀ x ∈ rest, ¬(x = ['.', '.']) :=
      fun x hx => hdd x (List.mem_cons_of_mem s hx)
    by_cases h1 : s = [] ∨ s = ['.']
    · have hk : keepSeg s = false := by
        rcases h1 with h | h <;> simp [keepSeg, h]
      simp only [List.foldl_cons, List.filter_cons, hk]
      rw [show normStep aar acc s = acc by simp [normStep, h1]]
      exact ih hrest acc
    · have hk : keepSeg s = true := by
        push_neg at h1
        simp [keepSeg, h1.1, h1.2]
      simp only [List.foldl_cons, List.filter_cons, hk]
      rw [show normStep aar acc s = s :: acc by simp [normStep, h1, hs]]
      rw [ih hrest (s :: acc)]
      simp

theorem joinWith_ne_nil (c : Char) (l : List (List Char)) (s : List Char)
    (hm : s ∈ l) (hs : ¬(s = [])) : ¬(joinWith c l = []) := by
  induction l with
  | nil => simp at hm
  | cons x rest ih =>
    match rest with
    | [] =>
      simp at hm
      show ¬(x = [])
      rw [← hm]; exact hs
    | t :: ts =>
      rw [joinWith_cons c x (t :: ts) (by simp)]
      simp

theorem keepSeg_mem_free (p : String) (s : List Char)
    (hm : s ∈ (splitOnChar '/' p.data).filter keepSeg) : '/' ∉ s :=
  sep_not_mem_of_mem_splitOnChar '/' p.data s (List.mem_of_mem_filter hm)

/-- Characterization of the segments of a normalized absolute path with
no `..` segment: either everything collapses to the root, or the
segments are the root marker, the kept segments of the input, and a
trailing empty segment when the input had a trailing separator. -/
theorem pathNormalize_segments (p : String)
    (habs : pathIsAbsolute p = true)
    (hdd : ∀ s ∈ splitOnChar '/' p.data, ¬(s = ['.', '.'])) :
    (pathNormalize p = "/" ∧ (splitOnChar '/' p.data).filter keepSeg = []) ∨
    splitOnChar '/' (pathNormalize p).data =
      [] :: (splitOnChar '/' p.data).filter keepSeg ++
        (if listEndsWith p.data ['/'] then [[]] else []) := by
  have hpne : ¬(p = "") := by
    intro h
    rw [h] at habs
    simp [pathIsAbsolute] at habs
  unfold pathNormalize
  rw [if_neg hpne, habs]
  simp only [Bool.not_true, if_true]
  rw [foldl_normStep false (splitOnChar '/' p.data) hdd []]
  simp only [List.append_nil, List.reverse_reverse]
  set core := (splitOnChar '/' p.data).filter keepSeg with hcore
  by_cases hjoin : joinWith '/' core = []
  · have hcnil : core = [] := by
      by_contra hc
      obtain ⟨s0, ss, hc2⟩ := List.exists_cons_of_ne_nil hc
      have hmem : s0 ∈ core := hc2 ▸ List.mem_cons_self s0 ss
      have hk : keepSeg s0 = true := List.of_mem_filter hmem
      have hs0 : ¬(s0 = []) := by
        simp [keepSeg] at hk
        exact hk.1
      exact joinWith_ne_nil '/' core s0 hmem hs0 hjoin
    left
    constructor
    · simp [hjoin]
    · exact hcnil
  · right
    rw [if_neg hjoin]
    have hfree : ∀ s ∈ core, '/' ∉ s := fun s hs => keepSeg_mem_free p s hs
    have hcne : ¬(core = []) := by
      intro h
      rw [h] at hjoin
      exact hjoin rfl
    by_cases htr : listEndsWith p.data ['/']
    · rw [if_pos htr, if_pos htr]
      show splitOnChar '/' ('/' :: (joinWith '/' core ++ ['/'])) = _
      rw [splitOnChar_cons_sep]
      have : joinWith '/' core ++ ['/'] = joinWith '/' core ++ '/' :: [] := rfl
      rw [this, splitOnChar_append_sep, splitOnChar_joinWith '/' core hcne hfree]
      simp [splitOnChar_nil]
    · rw [if_neg htr, if_neg htr]
      show splitOnChar '/' ('/' :: joinWith '/' core) = _
      rw [splitOnChar_cons_sep, splitOnChar_joinWith '/' core hcne hfree]
      simp



/-! ## Lemmas about validatePath -/

theorem mk_eq_empty_iff (s : List Char) : ((⟨s⟩ : String) = "") ↔ s = [] := by
  constructor
  · intro h; exact congrArg String.data h
  · intro h; rw [h]

theorem keepSeg_true (s : List Char) (h1 : ¬(s = [])) (h2 : ¬(s = ['.'])) :
    keepSeg s = true := by
  simp [keepSeg, h1, h2]

theorem segError_status (s : String) (e : CUIError) (h : segError s = some e) :
    e.status = 400 := by
  unfold segError at h
  split at h
  · cases h; rfl
  · split at h
    · cases h; rfl
    · split at h
      · cases h; rfl
      · cases h

theorem segError_isSome (s : String)
    (h : jsStartsWith s "." = true ∨ strHasChar s nullChar = true ∨
      hasInvalidChar s = true) : (segError s).isSome := by
  unfold segError
  split
  · simp
  · split
    · simp
    · split
      · simp
      · rcases h with h | h | h <;> simp_all

theorem checkSegments_some (l : List String) (seg : String)
    (hm : seg ∈ l) (hne : ¬(seg = "")) (hse : (segError seg).isSome) :
    ∃ e, checkSegments l = some e ∧ e.status = 400 := by
  induction l with
  | nil => simp at hm
  | cons x rest ih =>
    rcases List.mem_cons.mp hm with h1 | h2
    · unfold checkSegments
      rw [if_neg (by rw [← h1]; exact hne)]
      match he : segError x with
      | some e => exact ⟨e, rfl, segError_status x e he⟩
      | none =>
        rw [← h1] at he
        rw [he] at hse
        simp at hse
    · unfold checkSegments
      by_cases hx : x = ""
      · rw [if_pos hx]
        exact ih h2
      · rw [if_neg hx]
        match he : segError x with
        | some e => exact ⟨e, rfl, segError_status x e he⟩
        | none => exact ih h2

theorem not_infix_of_jsIncludes_false (p : String) (pat : String)
    (h : jsIncludes p pat = false) : ¬(pat.data <:+: p.data) := by
  simp [jsIncludes] at h
  exact h

theorem no_dotdot_segment (p : String) (h : jsIncludes p ".." = false) :
    ∀ s ∈ splitOnChar '/' p.data, ¬(s = ['.', '.']) := by
  intro s hs he
  subst he
  have : (String.data "..") <:+: p.data := mem_splitOnChar_contig '/' p.data _ hs
  exact not_infix_of_jsIncludes_false p ".." h this

/-- A surviving segment of the requested path is among the segments the
validation scans on the normalized path. -/
theorem surviving_segment_mem (p : String) (s : List Char)
    (habs : pathIsAbsolute p = true) (hdd : jsIncludes p ".." = false)
    (hmem : s ∈ splitOnChar '/' p.data) (hkeep : keepSeg s = true) :
    (⟨s⟩ : String) ∈ pathSegments (pathNormalize p) := by
  have hseg := no_dotdot_segment p hdd
  have hfilter : s ∈ (splitOnChar '/' p.data).filter keepSeg :=
    List.mem_filter.mpr ⟨hmem, hkeep⟩
  rcases pathNormalize_segments p habs hseg with ⟨hnorm, hnil⟩ | hchar
  · rw [hnil] at hfilter
    simp at hfilter
  · unfold pathSegments
    rw [hchar]
    exact List.mem_map_of_mem _
      (List.mem_cons_of_mem _ (List.mem_append_left _ hfilter))

theorem validatePath_rejects (cfg : FSConfig) (p : String)
    (hbase : cfg.allowedBasePaths = []) (hbad : rejectedPath p) :
    ∃ e, validatePath cfg p = .error e ∧ e.status = 400 := by
  by_cases habs : pathIsAbsolute p = true
  · by_cases hdd : jsIncludes p ".." = true
    · refine ⟨⟨"PATH_TRAVERSAL_DETECTED", "Invalid path: path traversal detected", 400⟩,
        ?_, rfl⟩
      unfold validatePath
      rw [habs, hdd]
      simp
    · have hddf : jsIncludes p ".." = false := by
        cases h : jsIncludes p ".." with
        | true => exact absurd h hdd
        | false => rfl
      have hsegs : ∃ s : List Char, (⟨s⟩ : String) ∈ pathSegments (pathNormalize p) ∧
          ¬((⟨s⟩ : String) = "") ∧ (segError ⟨s⟩).isSome := by
        rcases hbad with h | h | h | ⟨c, hc, hinv⟩ | ⟨s, hs, hhd, hdot⟩
        · rw [habs] at h; cases h
        · rw [h] at hddf; cases hddf
        · obtain ⟨s, hs, hns⟩ := mem_seg_of_mem '/' p.data nullChar h (by decide)
          have hsne : ¬(s = []) := by
            intro he; rw [he] at hns; simp at hns
          have hsdot : ¬(s = ['.']) := by
            intro he; rw [he] at hns; simp at hns
            exact absurd hns (by decide)
          refine ⟨s, surviving_segment_mem p s habs hddf hs (keepSeg_true s hsne hsdot),
            fun he => hsne ((mk_eq_empty_iff s).mp he), ?_⟩
          refine segError_isSome _ (Or.inr (Or.inl ?_))
          simp only [strHasChar]
          exact List.any_eq_true.mpr ⟨nullChar, hns, by simp⟩
        · have hcslash : ¬(c = '/') := by
            revert hinv; unfold invalidChars; intro hinv; fin_cases hinv <;> decide
          have hcdot : ¬(c = '.') := by
            revert hinv; unfold invalidChars; intro hinv; fin_cases hinv <;> decide
          obtain ⟨s, hs, hcs⟩ := mem_seg_of_mem '/' p.data c hc hcslash
          have hsne : ¬(s = []) := by
            intro he; rw [he] at hcs; simp at hcs
          have hsdot : ¬(s = ['.']) := by
            intro he; rw [he] at hcs; simp at hcs
            exact hcdot hcs
          refine ⟨s, surviving_segment_mem p s habs hddf hs (keepSeg_true s hsne hsdot),
            fun he => hsne ((mk_eq_empty_iff s).mp he), ?_⟩
          refine segError_isSome _ (Or.inr (Or.inr ?_))
          simp only [hasInvalidChar]
          exact List.any_eq_true.mpr ⟨c, hcs, by simp [hinv]⟩
        · obtain ⟨t, hst⟩ : ∃ t, s = '.' :: t := by
            cases s with
            | nil => simp at hhd
            | cons x xs =>
              simp at hhd
              exact ⟨xs, by rw [hhd]⟩
          have hsne : ¬(s = []) := by rw [hst]; simp
          refine ⟨s, surviving_segment_mem p s habs hddf hs (keepSeg_true s hsne hdot),
            fun he => hsne ((mk_eq_empty_iff s).mp he), ?_⟩
          refine segError_isSome _ (Or.inl ?_)
          rw [hst]
          simp [jsStartsWith]
      obtain ⟨s, hmem, hne, hsome⟩ := hsegs
      obtain ⟨e, hce, hst⟩ := checkSegments_some _ _ hmem hne hsome
      refine ⟨e, ?_, hst⟩
      unfold validatePath
      rw [habs, hddf]
      simp only [Bool.not_true, Bool.false_eq_true, if_false]
      rw [hbase]
      simp only [Bool.not_false, Bool.false_and]
      rw [hce]
      simp
  · refine ⟨⟨"INVALID_PATH", "Path must be absolute", 400⟩, ?_, rfl⟩
    unfold validatePath
    have hf : pathIsAbsolute p = false := by
      cases h : pathIsAbsolute p with
      | true => exact absurd h habs
      | false => rfl
    rw [hf]
    simp


/-! ## Lemmas about pathJoin and filenames -/

theorem str_data_append (a b : String) : (a ++ b).data = a.data ++ b.data := by
  cases a; cases b; rfl

theorem string_eq_of_data (a b : String) (h : a.data = b.data) : a = b :=
  congrArg String.mk h

theorem getLast?_mem_chars (l : List Char) (a : Char) (h : l.getLast? = some a) : a ∈ l := by
  have hm := @List.mem_getLast?_eq_getLast Char l a (by rw [h]; rfl)
  obtain ⟨hne, he⟩ := hm
  rw [he]
  exact List.getLast_mem hne

theorem endsWith_true_getLast (l : List Char) (c : Char)
    (h : listEndsWith l [c] = true) : l.getLast? = some c := by
  have hs : [c] <:+ l := by simpa [listEndsWith] using h
  obtain ⟨t, ht⟩ := hs
  rw [← ht]
  exact List.getLast?_concat t

theorem abs_data (p : String) (h : pathIsAbsolute p = true) : ∃ r, p.data = '/' :: r := by
  unfold pathIsAbsolute at h
  cases hp : p.data with
  | nil => rw [hp] at h; simp at h
  | cons c r =>
    rw [hp] at h
    simp at h
    exact ⟨r, by rw [h]⟩

theorem not_empty_of_abs (p : String) (h : pathIsAbsolute p = true) : ¬(p = "") := by
  intro he
  rw [he] at h
  simp [pathIsAbsolute] at h

theorem pathNormalize_absolute (p : String) (habs : pathIsAbsolute p = true) :
    pathIsAbsolute (pathNormalize p) = true := by
  have hpne := not_empty_of_abs p habs
  unfold pathNormalize
  rw [if_neg hpne, habs]
  simp only [Bool.not_true, eq_self_iff_true, if_true]
  split
  · decide
  · unfold pathIsAbsolute
    simp

theorem pathNormalize_no_dotdot_seg (p : String) (habs : pathIsAbsolute p = true)
    (hdd : ∀ s ∈ splitOnChar '/' p.data, ¬(s = ['.', '.'])) :
    ∀ s ∈ splitOnChar '/' (pathNormalize p).data, ¬(s = ['.', '.']) := by
  rcases pathNormalize_segments p habs hdd with ⟨hn, _⟩ | hchar
  · rw [hn]; decide
  · rw [hchar]
    intro s hs
    rcases List.mem_cons.mp hs with h1 | h2
    · rw [h1]; simp
    · rcases List.mem_append.mp h2 with h3 | h4
      · exact hdd s (List.mem_of_mem_filter h3)
      · split at h4
        · rcases List.mem_singleton.mp h4 with h5
          rw [h5]; simp
        · simp at h4

theorem pathJoin_getLast (d x : String)
    (habs : pathIsAbsolute d = true)
    (hdd : ∀ s ∈ splitOnChar '/' d.data, ¬(s = ['.', '.']))
    (hxfree : '/' ∉ x.data) (hxne : ¬(x.data = []))
    (hxdot : ¬(x.data = ['.'])) (hxdd : ¬(x.data = ['.', '.'])) :
    (splitOnChar '/' (pathJoin d x).data).getLast? = some x.data := by
  have hdne := not_empty_of_abs d habs
  have hxne' : ¬(x = "") := by
    intro he
    exact hxne (by rw [he])
  unfold pathJoin
  rw [if_neg (by intro hc; exact hdne hc.1), if_neg hdne, if_neg hxne']
  have hu : (d ++ "/" ++ x).data = d.data ++ '/' :: x.data := by
    rw [str_data_append, str_data_append]
    simp
  have habs_u : pathIsAbsolute (d ++ "/" ++ x) = true := by
    obtain ⟨r, hr⟩ := abs_data d habs
    unfold pathIsAbsolute
    rw [hu, hr]
    simp
  have hsegu : splitOnChar '/' (d ++ "/" ++ x).data =
      splitOnChar '/' d.data ++ [x.data] := by
    rw [hu, splitOnChar_append_sep, splitOnChar_single '/' x.data hxfree]
  have hddu : ∀ s ∈ splitOnChar '/' (d ++ "/" ++ x).data, ¬(s = ['.', '.']) := by
    rw [hsegu]
    intro s hs
    rcases List.mem_append.mp hs with h1 | h2
    · exact hdd s h1
    · rw [List.mem_singleton.mp h2]; exact hxdd
  have hkx : keepSeg x.data = true := keepSeg_true x.data hxne hxdot
  rcases pathNormalize_segments (d ++ "/" ++ x) habs_u hddu with ⟨hn, hnil⟩ | hchar
  · exfalso
    have hxm : x.data ∈ (splitOnChar '/' (d ++ "/" ++ x).data).filter keepSeg := by
      rw [hsegu]
      exact List.mem_filter.mpr ⟨List.mem_append_right _ (List.mem_singleton.mpr rfl), hkx⟩
    rw [hnil] at hxm
    simp at hxm
  · rw [hchar]
    have htr : listEndsWith (d ++ "/" ++ x).data ['/'] = false := by
      cases h : listEndsWith (d ++ "/" ++ x).data ['/'] with
      | false => rfl
      | true =>
        exfalso
        have hlast := endsWith_true_getLast _ _ h
        rw [hu] at hlast
        rw [show d.data ++ '/' :: x.data = (d.data ++ ['/']) ++ x.data by simp] at hlast
        rw [List.getLast?_append_of_ne_nil _ hxne] at hlast
        exact hxfree (getLast?_mem_chars _ _ hlast)
    rw [htr]
    simp only [Bool.false_eq_true, if_false, List.append_nil]
    rw [hsegu, List.filter_append]
    rw [show List.filter keepSeg [x.data] = [x.data] by simp [hkx]]
    rw [show ([] :: (List.filter keepSeg (splitOnChar '/' d.data) ++ [x.data])) =
      (([] : List Char) :: List.filter keepSeg (splitOnChar '/' d.data)) ++ [x.data] by simp]
    exact List.getLast?_concat _

theorem pathJoin_ne_of_data_ne (d x y : String)
    (habs : pathIsAbsolute d = true)
    (hdd : ∀ s ∈ splitOnChar '/' d.data, ¬(s = ['.', '.']))
    (hxfree : '/' ∉ x.data) (hxne : ¬(x.data = []))
    (hxdot : ¬(x.data = ['.'])) (hxdd : ¬(x.data = ['.', '.']))
    (hyfree : '/' ∉ y.data) (hyne : ¬(y.data = []))
    (hydot : ¬(y.data = ['.'])) (hydd : ¬(y.data = ['.', '.']))
    (hxy : ¬(x.data = y.data)) : ¬(pathJoin d x = pathJoin d y) := by
  intro he
  have h1 := pathJoin_getLast d x habs hdd hxfree hxne hxdot hxdd
  have h2 := pathJoin_getLast d y habs hdd hyfree hyne hydot hydd
  rw [he, h2] at h1
  exact hxy (Option.some_injective _ h1.symm)


/-! ## Lemmas about filenames and the timestamp suffix -/

theorem slash_not_mem_basename (p : String) : '/' ∉ (pathBasename p).data := by
  unfold pathBasename
  intro h
  simp only at h
  rw [List.mem_reverse] at h
  have := List.mem_takeWhile_imp h
  simp at this

theorem natToStrAux_ne_nil (fuel n : Nat) (h : 0 < fuel) : ¬(natToStrAux fuel n = []) := by
  match fuel with
  | f + 1 =>
    unfold natToStrAux
    split
    · simp
    · simp

theorem natToStr_data_ne_nil (n : Nat) : ¬((natToStr n).data = []) := by
  unfold natToStr
  exact natToStrAux_ne_nil (n + 1) n (by omega)

theorem digitChar_ne_slash (k : Nat) (h : k < 10) : ¬(Char.ofNat (48 + k) = '/') := by
  interval_cases k <;> decide

theorem slash_not_mem_natToStrAux (fuel n : Nat) : '/' ∉ natToStrAux fuel n := by
  induction fuel generalizing n with
  | zero => simp [natToStrAux]
  | succ f ih =>
    unfold natToStrAux
    split
    · rename_i hlt
      intro h
      exact digitChar_ne_slash n hlt (List.mem_singleton.mp h).symm
    · intro h
      rcases List.mem_append.mp h with h1 | h2
      · exact ih (n / 10) h1
      · exact digitChar_ne_slash (n % 10) (Nat.mod_lt _ (by omega))
          (List.mem_singleton.mp h2).symm

theorem lastIdxOf_lt (c : Char) (cs : List Char) (i : Nat)
    (h : lastIdxOf c cs = some i) : i < cs.length := by
  unfold lastIdxOf at h
  match hf : cs.reverse.findIdx? (fun d => d = c) with
  | none => rw [hf] at h; cases h
  | some j =>
    rw [hf] at h
    cases h
    have hcs : ¬(cs = []) := by
      intro he
      rw [he] at hf
      simp [List.findIdx?] at hf
    have hlen : 0 < cs.length := List.length_pos.mpr hcs
    omega

theorem pathExtname_eq_empty (name : String) (hbase : pathBasename name = name)
    (hidx : lastIdxOf '.' name.data = none ∨ lastIdxOf '.' name.data = some 0) :
    pathExtname name = "" := by
  rcases hidx with h | h <;> simp [pathExtname, hbase, h]

theorem pathExtname_eq_drop (name : String) (hbase : pathBasename name = name)
    (i : Nat) (hidx : lastIdxOf '.' name.data = some i) (hi : ¬(i = 0)) :
    pathExtname name = ⟨name.data.drop i⟩ := by
  simp [pathExtname, hbase, hidx, hi]

/-- Reconstruction of a validated filename from its extension split: the
basename-without-extension concatenated with the extension is the
filename. -/
theorem ext_concat (name : String) (hbase : pathBasename name = name) :
    (pathBasenameExt name (pathExtname name)).data ++ (pathExtname name).data =
      name.data := by
  match hidx : lastIdxOf '.' name.data with
  | none =>
    rw [pathExtname_eq_empty name hbase (Or.inl hidx)]
    simp [pathBasenameExt, hbase]
  | some i =>
    by_cases hi : i = 0
    · rw [pathExtname_eq_empty name hbase (Or.inr (hi ▸ hidx))]
      simp [pathBasenameExt, hbase]
    · rw [pathExtname_eq_drop name hbase i hidx hi]
      have hil : i < name.data.length := lastIdxOf_lt '.' name.data i hidx
      have hdropne : ¬(name.data.drop i = []) := by
        intro he
        have := List.drop_eq_nil_iff.mp he
        omega
      have hextne : ¬((⟨name.data.drop i⟩ : String) = "") := by
        intro he
        exact hdropne ((mk_eq_empty_iff _).mp he)
      have hbne : ¬(name = (⟨name.data.drop i⟩ : String)) := by
        intro he
        have hd := congrArg String.data he
        simp only at hd
        have hc := congrArg List.length hd
        rw [List.length_drop] at hc
        omega
      have hsuf : name.data.drop i <:+ name.data := List.drop_suffix i name.data
      have hres : pathBasenameExt name ⟨name.data.drop i⟩ = ⟨name.data.take i⟩ := by
        simp only [pathBasenameExt, hbase]
        rw [if_pos (by simp [hextne, hbne, listEndsWith, hsuf])]
        show (⟨List.take (name.data.length - (name.data.drop i).length) name.data⟩ :
          String) = _
        rw [List.length_drop]
        rw [show name.data.length - (name.data.length - i) = i by omega]
      rw [hres]
      show name.data.take i ++ name.data.drop i = name.data
      exact List.take_append_drop i name.data

theorem timestampedName_data (name : String) (now : Nat) :
    (timestampedName name now).data =
      (pathBasenameExt name (pathExtname name)).data ++
        '.' :: ((natToStr now).data ++ (pathExtname name).data) := by
  unfold timestampedName
  simp only
  rw [str_data_append, str_data_append, str_data_append]
  simp

theorem timestampedName_length (name : String) (now : Nat)
    (hbase : pathBasename name = name) :
    (timestampedName name now).data.length =
      name.data.length + 1 + (natToStr now).data.length := by
  rw [timestampedName_data]
  have hc := congrArg List.length (ext_concat name hbase)
  simp only [List.length_append] at hc
  simp only [List.length_append, List.length_cons]
  omega

theorem timestampedName_ne_name (name : String) (now : Nat)
    (hbase : pathBasename name = name) :
    ¬((timestampedName name now).data = name.data) := by
  intro h
  have := congrArg List.length h
  rw [timestampedName_length name now hbase] at this
  omega

theorem slash_not_mem_name_of_basename (name : String)
    (hbase : pathBasename name = name) : '/' ∉ name.data := by
  intro h
  have := slash_not_mem_basename name
  rw [hbase] at this
  exact this h

theorem slash_not_mem_timestamped (name : String) (now : Nat)
    (hbase : pathBasename name = name) :
    '/' ∉ (timestampedName name now).data := by
  intro h
  rw [timestampedName_data] at h
  have hrecon := ext_concat name hbase
  have hn := slash_not_mem_name_of_basename name hbase
  rcases List.mem_append.mp h with h1 | h2
  · exact hn (hrecon ▸ List.mem_append_left _ h1)
  · rcases List.mem_cons.mp h2 with h3 | h4
    · simp at h3
    · rcases List.mem_append.mp h4 with h5 | h6
      · exact slash_not_mem_natToStrAux (now + 1) now h5
      · exact hn (hrecon ▸ List.mem_append_right _ h6)

theorem name_data_ne_nil (name : String) (hname : ¬(name = "")) :
    ¬(name.data = []) := by
  intro h
  exact hname (string_eq_of_data name "" h)

theorem timestamped_ne_dot (name : String) (now : Nat)
    (hbase : pathBasename name = name) (hname : ¬(name = "")) :
    ¬((timestampedName name now).data = ['.']) ∧
    ¬((timestampedName name now).data = ['.', '.']) := by
  have hlen := timestampedName_length name now hbase
  have hnn : 0 < name.data.length :=
    List.length_pos.mpr (name_data_ne_nil name hname)
  have hts : 0 < (natToStr now).data.length :=
    List.length_pos.mpr (natToStr_data_ne_nil now)
  constructor
  · intro h
    have hlc := congrArg List.length h
    rw [hlen] at hlc
    simp only [List.length_cons, List.length_nil] at hlc
    omega
  · intro h
    have hlc := congrArg List.length h
    rw [hlen] at hlc
    simp only [List.length_cons, List.length_nil] at hlc
    omega

theorem name_ne_dots (name : String) (hdot : jsStartsWith name "." = false) :
    ¬(name.data = ['.']) ∧ ¬(name.data = ['.', '.']) := by
  constructor
  · intro h
    have : jsStartsWith name "." = true := by
      simp [jsStartsWith, h]
    rw [hdot] at this
    cases this
  · intro h
    have : jsStartsWith name "." = true := by
      simp only [jsStartsWith, h]
      decide
    rw [hdot] at this
    cases this

theorem validatePath_ok_inv (cfg : FSConfig) (p d : String)
    (h : validatePath cfg p = .ok d) :
    pathIsAbsolute p = true ∧ jsIncludes p ".." = false ∧ d = pathNormalize p := by
  unfold validatePath at h
  split at h
  · cases h
  · rename_i h1
    split at h
    · cases h
    · rename_i h2
      split at h
      · cases h
      · split at h
        · cases h
        · cases h
          refine ⟨?_, ?_, rfl⟩
          · simpa using h1
          · simpa using h2


/-! ## Claim theorems: stop route -/

/-- C2 (amended): the stop route answers 200 with a body whose field
`success` (not `stopped`) is the boolean returned by the process manager,
i.e. whether a live process existed to stop; no `stopped` field is
present. -/
theorem stop_returns_success_field (pm : PMState) (streamingId : String) :
    (handleStop pm streamingId).1 =
      .ok [("success", pm.live.contains streamingId)] ∧
    List.lookup "stopped" [("success", pm.live.contains streamingId)] = none := by
  constructor
  · cases hc : pm.live.contains streamingId with
    | true =>
      have hm : streamingId ∈ pm.live := by simpa using hc
      simp [handleStop, stopConversation, hm]
    | false =>
      have hm : ¬(streamingId ∈ pm.live) := by simpa using hc
      simp [handleStop, stopConversation, hm]
  · rfl

/-- C2 counterexample: with a live process for "s1", the stop response
carries no `stopped` field at all, against the claim that the output is
`(stopped: boolean)`. -/
theorem stop_field_name_counterexample :
    pmC2.live.contains "s1" = true ∧
    (handleStop pmC2 "s1").1 = .ok [("success", true)] ∧
    List.lookup "stopped" [("success", true)] = none := by decide

/-- C3: stopping an id with no live process returns false, leaves the
process table unchanged, performs no terminate action, and the route
never errors. -/
theorem stop_unknown_id_noop (pm : PMState) (streamingId : String)
    (h : pm.live.contains streamingId = false) :
    stopConversation pm streamingId = (false, pm, []) ∧
    (handleStop pm streamingId).1 = .ok [("success", false)] ∧
    (handleStop pm streamingId).2.1 = pm ∧
    (handleStop pm streamingId).2.2 = [] := by
  have hs : stopConversation pm streamingId = (false, pm, []) := by
    unfold stopConversation
    rw [h]
    simp
  refine ⟨hs, ?_, ?_, ?_⟩ <;> simp [handleStop, hs]

/-- C3 witness: stopping an unknown id on an empty process table. -/
theorem stop_unknown_id_noop_witness :
    (PMState.mk []).live.contains "zz" = false ∧
    stopConversation ⟨[]⟩ "zz" = (false, ⟨[]⟩, []) :=
  ⟨by decide, (stop_unknown_id_noop ⟨[]⟩ "zz" (by decide)).1⟩

/-! ## Claim theorems: list route -/

/-- C4: the list result is exactly the history conversations annotated
with the tracker's status (streaming id attached when ongoing) followed
by the active conversations history has not recorded, and the total is
the history total plus the number of those. -/
theorem list_merges_history_and_active (historyResult : HistoryListResult)
    (t : TrackerState) (metrics : String → Option String) :
    handleListConversations historyResult t metrics =
      ⟨specAnnotated historyResult t metrics ++ specActiveNotRecorded historyResult t,
       historyResult.total + (specActiveNotRecorded historyResult t).length⟩ := by
  have hann : ∀ c, annotateConversation t metrics c =
      (⟨c.sessionId, c.summary, getConversationStatus t c.sessionId,
        if getConversationStatus t c.sessionId = "ongoing"
        then getStreamingId t c.sessionId else none,
        metrics c.sessionId⟩ : ConversationSummaryOut) := by
    intro c
    simp only [annotateConversation]
    by_cases hs : getConversationStatus t c.sessionId = "ongoing"
    · rw [if_pos hs, if_pos hs]
      cases hg : getStreamingId t c.sessionId with
      | some sid => rfl
      | none => rfl
    · rw [if_neg hs, if_neg hs]
  have hmap : historyResult.conversations.map (annotateConversation t metrics) =
      specAnnotated historyResult t metrics := by
    unfold specAnnotated
    rw [show annotateConversation t metrics = _ from funext hann]
  have hsid : (specAnnotated historyResult t metrics).map (fun c => c.sessionId) =
      historyResult.conversations.map (fun c => c.sessionId) := by
    unfold specAnnotated
    rw [List.map_map]
    rfl
  simp only [handleListConversations, getConversationsNotInHistory]
  rw [hmap, hsid]
  rfl


/-! ## Lemmas about the session store -/

theorem optOr_none (a : Option String) : optOr a none = a := by
  cases a <;> rfl

theorem lookup_map_update (store : List (String × SessionInfo)) (sid : String)
    (v : SessionInfo) (h : (store.lookup sid).isSome) :
    (store.map (fun kv => if kv.1 = sid then (sid, v) else kv)).lookup sid = some v := by
  induction store with
  | nil => simp [List.lookup] at h
  | cons kv rest ih =>
    obtain ⟨k, b⟩ := kv
    by_cases hk : k = sid
    · simp only [List.map_cons, if_pos hk]
      simp [List.lookup]
    · have hbeq : (sid == k) = false := by
        simp only [beq_eq_false_iff_ne, ne_eq]
        intro he
        exact hk he.symm
      simp only [List.map_cons]
      rw [if_neg (by simpa using hk)]
      simp only [List.lookup, hbeq] at h ⊢
      exact ih h

theorem lookup_map_update_ne (store : List (String × SessionInfo)) (sid sid2 : String)
    (v : SessionInfo) (h : ¬(sid2 = sid)) :
    (store.map (fun kv => if kv.1 = sid then (sid, v) else kv)).lookup sid2 =
      store.lookup sid2 := by
  induction store with
  | nil => rfl
  | cons kv rest ih =>
    obtain ⟨k, b⟩ := kv
    have h1 : (sid2 == sid) = false := by
      simp only [beq_eq_false_iff_ne, ne_eq]
      exact h
    by_cases hk : k = sid
    · simp only [List.map_cons]
      rw [if_pos (by simpa using hk)]
      have h2 : (sid2 == k) = false := by
        rw [hk]
        exact h1
      simp only [List.lookup, h1, h2]
      exact ih
    · simp only [List.map_cons]
      rw [if_neg (by simpa using hk)]
      cases hbeq : (sid2 == k) with
      | true => simp [List.lookup, hbeq]
      | false =>
        simp only [List.lookup, hbeq]
        exact ih

theorem lookup_update_self (store : List (String × SessionInfo)) (sid : String)
    (u : SessionInfoUpdate) :
    ∃ si, (updateSessionStore store sid u).lookup sid = some si ∧
      si.permission_mode = optOr u.permission_mode
        (match store.lookup sid with
         | some s0 => s0.permission_mode
         | none => none) ∧
      si.continuation_session_id = optOr u.continuation_session_id
        (match store.lookup sid with
         | some s0 => s0.continuation_session_id
         | none => none) := by
  unfold updateSessionStore
  cases h : store.lookup sid with
  | none =>
    refine ⟨⟨u.permission_mode, u.continuation_session_id⟩, ?_, ?_, ?_⟩
    · simp [List.lookup]
    · rw [optOr_none]
    · rw [optOr_none]
  | some s0 =>
    refine ⟨⟨optOr u.permission_mode s0.permission_mode,
      optOr u.continuation_session_id s0.continuation_session_id⟩, ?_, rfl, rfl⟩
    exact lookup_map_update store sid _ (by rw [h]; rfl)

theorem lookup_update_ne (store : List (String × SessionInfo)) (sid sid2 : String)
    (u : SessionInfoUpdate) (h : ¬(sid2 = sid)) :
    (updateSessionStore store sid u).lookup sid2 = store.lookup sid2 := by
  unfold updateSessionStore
  cases hl : store.lookup sid with
  | none =>
    have h1 : (sid2 == sid) = false := by
      simp only [beq_eq_false_iff_ne, ne_eq]
      exact h
    simp [List.lookup, h1]
  | some s0 => exact lookup_map_update_ne store sid sid2 _ h

/-- Continuation-link preservation through a later permission-mode
update: the stored continuation id survives any update whose
continuation field is empty. -/
theorem lookup_after_pm_update (store1 : List (String × SessionInfo))
    (rid target : String) (pmu : Option String) (x : String)
    (hsi : ∃ si, store1.lookup rid = some si ∧ si.continuation_session_id = some x) :
    ∃ si, (updateSessionStore store1 target ⟨pmu, none⟩).lookup rid = some si ∧
      si.continuation_session_id = some x := by
  obtain ⟨si, hl, hc⟩ := hsi
  by_cases he : rid = target
  · subst he
    obtain ⟨si2, hl2, _, hc2⟩ := lookup_update_self store1 rid ⟨pmu, none⟩
    refine ⟨si2, hl2, ?_⟩
    rw [hc2, hl]
    show optOr none si.continuation_session_id = some x
    rw [hc]
    rfl
  · rw [lookup_update_ne store1 target rid _ he]
    exact ⟨si, hl, hc⟩


/-! ## Claim theorems: start route -/

theorem handleStart_spawn_ok (env : StartEnv) (req : StartRequest)
    (stid : String) (init : SystemInit)
    (hwd : tsTruthy req.workingDirectory = true)
    (hip : tsTruthy req.initialPrompt = true)
    (hgate : (tsTruthy req.permissionMode &&
      !(validModes.contains ((req.permissionMode).getD ""))) = false)
    (hspawn : env.spawn (builtConfig env req) = .ok (stid, init)) :
    handleStart env req =
      (.ok (startResponse stid init),
       (persistPermissionMode env req init (resumeBookkeeping env req stid init).1
         (resumeBookkeeping env req stid init).2).1,
       (persistPermissionMode env req init (resumeBookkeeping env req stid init).1
         (resumeBookkeeping env req stid init).2).2) := by
  unfold handleStart
  rw [if_neg (show ¬((!tsTruthy req.workingDirectory) = true) by rw [hwd]; simp),
      if_neg (show ¬((!tsTruthy req.initialPrompt) = true) by rw [hip]; simp),
      if_neg (by rw [hgate]; simp), hspawn]

/-- C1 (amended): a start request with workingDirectory or initialPrompt
absent fails with the matching missing-field error (HTTP 400) and no
effect at all — in particular no spawn; a well-formed request supplying a
non-empty permissionMode outside the recognized modes fails with
InvalidPermissionMode (HTTP 400), again with no effect.  (An empty-string
permissionMode is treated as absent by the route.) -/
theorem start_validation (env : StartEnv) (req : StartRequest) :
    (req.workingDirectory = none ∨ req.initialPrompt = none →
      ∃ e, (handleStart env req).1 = .error e ∧ e.status = 400 ∧
        (e.code = "MISSING_WORKING_DIRECTORY" ∨ e.code = "MISSING_INITIAL_PROMPT") ∧
        (handleStart env req).2.2 = []) ∧
    (∀ pm, tsTruthy req.workingDirectory = true →
      tsTruthy req.initialPrompt = true →
      req.permissionMode = some pm → ¬(pm = "") →
      validModes.contains pm = false →
      ∃ e, (handleStart env req).1 = .error e ∧ e.status = 400 ∧
        e.code = "INVALID_PERMISSION_MODE" ∧
        (handleStart env req).2.2 = []) := by
  constructor
  · intro h
    by_cases hwd : tsTruthy req.workingDirectory = true
    · have hip : req.initialPrompt = none := by
        rcases h with h | h
        · rw [h] at hwd
          simp [tsTruthy] at hwd
        · exact h
      have hred : handleStart env req =
          (.error ⟨"MISSING_INITIAL_PROMPT", "initialPrompt is required", 400⟩,
           env.sessionStore, []) := by
        unfold handleStart
        rw [if_neg (show ¬((!tsTruthy req.workingDirectory) = true) by rw [hwd]; simp),
            if_pos (show (!tsTruthy req.initialPrompt) = true by rw [hip]; rfl)]
      exact ⟨_, by rw [hred], rfl, Or.inr rfl, by rw [hred]⟩
    · have hwf : tsTruthy req.workingDirectory = false := by
        cases hc : tsTruthy req.workingDirectory
        · rfl
        · exact absurd hc hwd
      have hred : handleStart env req =
          (.error ⟨"MISSING_WORKING_DIRECTORY", "workingDirectory is required", 400⟩,
           env.sessionStore, []) := by
        unfold handleStart
        rw [if_pos (show (!tsTruthy req.workingDirectory) = true by rw [hwf]; rfl)]
      exact ⟨_, by rw [hred], rfl, Or.inl rfl, by rw [hred]⟩
  · intro pm hwd hip hpm hne hnv
    have h3 : (tsTruthy req.permissionMode &&
        !(validModes.contains ((req.permissionMode).getD ""))) = true := by
      rw [hpm]
      show (!decide (pm = "") && !(validModes.contains pm)) = true
      rw [hnv]
      simp [hne]
    have hred : handleStart env req =
        (.error ⟨"INVALID_PERMISSION_MODE",
          "permissionMode must be one of: acceptEdits, bypassPermissions, default, plan",
          400⟩, env.sessionStore, []) := by
      unfold handleStart
      rw [if_neg (show ¬((!tsTruthy req.workingDirectory) = true) by rw [hwd]; simp),
          if_neg (show ¬((!tsTruthy req.initialPrompt) = true) by rw [hip]; simp),
          if_pos h3]
    exact ⟨_, by rw [hred], rfl, rfl, by rw [hred]⟩

/-- C1 witness: a request without workingDirectory is rejected with a
missing-field error and no effects. -/
theorem start_validation_witness :
    ∃ e, (handleStart envC1w reqC1w).1 = .error e ∧ e.status = 400 ∧
      (e.code = "MISSING_WORKING_DIRECTORY" ∨ e.code = "MISSING_INITIAL_PROMPT") ∧
      (handleStart envC1w reqC1w).2.2 = [] :=
  (start_validation envC1w reqC1w).1 (Or.inl rfl)

/-- C1 counterexample: permissionMode supplied as the empty string is not
one of the recognized modes, yet the start succeeds and spawns (the
claimed InvalidPermissionMode rejection does not happen). -/
theorem start_empty_mode_counterexample :
    reqC1.permissionMode = some "" ∧
    validModes.contains "" = false ∧
    (handleStart envC1 reqC1).1 = .ok (startResponse "st1" initC1) ∧
    (handleStart envC1 reqC1).2.2 = [.spawnCall (builtConfig envC1 reqC1)] :=
  ⟨rfl, by decide, rfl, rfl⟩

/-- C5: on a resumed start, once the init event yields the new session
id, the prior session's record is updated to reference it as its
continuation, the new session is registered with the status tracker under
its streaming id, and that registration — carrying only the prompt,
working directory, model and inherited messages — is the only tracker
write the route performs. -/
theorem start_resume_links_and_registers (env : StartEnv) (req : StartRequest)
    (rid stid : String) (init : SystemInit)
    (hrid : req.resumedSessionId = some rid)
    (hwd : tsTruthy req.workingDirectory = true)
    (hip : tsTruthy req.initialPrompt = true)
    (hgate : (tsTruthy req.permissionMode &&
      !(validModes.contains ((req.permissionMode).getD ""))) = false)
    (hspawn : env.spawn (builtConfig env req) = .ok (stid, init)) :
    ((handleStart env req).2.2).filter isRegister =
      [StartEffect.registerSession stid init.session_id
        ⟨req.initialPrompt, init.cwd, init.model,
         if (fetchedPrev env req).length > 0 then some (fetchedPrev env req) else none⟩] ∧
    StartEffect.sessionUpdate rid ⟨none, some init.session_id⟩ ∈
      (handleStart env req).2.2 ∧
    (∃ si, ((handleStart env req).2.1).lookup rid = some si ∧
      si.continuation_session_id = some init.session_id) := by
  rw [handleStart_spawn_ok env req stid init hwd hip hgate hspawn]
  have hbk : resumeBookkeeping env req stid init =
      (updateSessionStore env.sessionStore rid ⟨none, some init.session_id⟩,
       [StartEffect.spawnCall (builtConfig env req),
        .sessionUpdate rid ⟨none, some init.session_id⟩,
        .registerSession stid init.session_id
          ⟨req.initialPrompt, init.cwd, init.model,
           if (fetchedPrev env req).length > 0 then some (fetchedPrev env req)
           else none⟩]) := by
    unfold resumeBookkeeping
    rw [hrid]
  rw [hbk]
  have hstore1 : ∃ si, (updateSessionStore env.sessionStore rid
      ⟨none, some init.session_id⟩).lookup rid = some si ∧
      si.continuation_session_id = some init.session_id := by
    obtain ⟨si, hl, _, hc⟩ :=
      lookup_update_self env.sessionStore rid ⟨none, some init.session_id⟩
    exact ⟨si, hl, by rw [hc]; rfl⟩
  unfold persistPermissionMode
  by_cases hp : tsTruthy (builtConfig env req).permissionMode = true
  · rw [if_pos hp]
    refine ⟨?_, ?_, ?_⟩
    · simp [isRegister]
    · simp
    · exact lookup_after_pm_update _ rid init.session_id _ init.session_id hstore1
  · rw [if_neg hp]
    refine ⟨?_, ?_, ?_⟩
    · simp [isRegister]
    · simp
    · exact hstore1

/-- C5 witness: a concrete resumed start performs the continuation link
and exactly one tracker registration. -/
theorem start_resume_links_and_registers_witness :
    ((handleStart envC5 reqC5).2.2).filter isRegister =
      [StartEffect.registerSession "st5" initC5.session_id
        ⟨reqC5.initialPrompt, initC5.cwd, initC5.model,
         if (fetchedPrev envC5 reqC5).length > 0 then some (fetchedPrev envC5 reqC5)
         else none⟩] ∧
    StartEffect.sessionUpdate "old5" ⟨none, some initC5.session_id⟩ ∈
      (handleStart envC5 reqC5).2.2 ∧
    (∃ si, ((handleStart envC5 reqC5).2.1).lookup "old5" = some si ∧
      si.continuation_session_id = some initC5.session_id) :=
  start_resume_links_and_registers envC5 reqC5 "old5" "st5" initC5
    rfl rfl rfl (by decide) rfl

/-- C6: a resumed start without a supplied permission mode fetches the
mode stored for the resumed session and uses it for the new conversation;
and whenever a mode is determined for the new conversation it is written
back to the session store under the new session id. -/
theorem start_permission_mode_inheritance (env : StartEnv) (req : StartRequest)
    (stid : String) (init : SystemInit) :
    (∀ rid si m, req.resumedSessionId = some rid →
      req.permissionMode = none →
      tsTruthy req.workingDirectory = true →
      tsTruthy req.initialPrompt = true →
      env.sessionStore.lookup rid = some si →
      si.permission_mode = some m → ¬(m = "") →
      env.spawn (builtConfig env req) = .ok (stid, init) →
      (builtConfig env req).permissionMode = some m ∧
      (∃ si2, ((handleStart env req).2.1).lookup init.session_id = some si2 ∧
        si2.permission_mode = some m)) ∧
    (∀ pmv, tsTruthy req.workingDirectory = true →
      tsTruthy req.initialPrompt = true →
      (tsTruthy req.permissionMode &&
        !(validModes.contains ((req.permissionMode).getD ""))) = false →
      env.spawn (builtConfig env req) = .ok (stid, init) →
      (builtConfig env req).permissionMode = some pmv → ¬(pmv = "") →
      ∃ si2, ((handleStart env req).2.1).lookup init.session_id = some si2 ∧
        si2.permission_mode = some pmv) := by
  have general : ∀ pmv, tsTruthy req.workingDirectory = true →
      tsTruthy req.initialPrompt = true →
      (tsTruthy req.permissionMode &&
        !(validModes.contains ((req.permissionMode).getD ""))) = false →
      env.spawn (builtConfig env req) = .ok (stid, init) →
      (builtConfig env req).permissionMode = some pmv → ¬(pmv = "") →
      ∃ si2, ((handleStart env req).2.1).lookup init.session_id = some si2 ∧
        si2.permission_mode = some pmv := by
    intro pmv hwd hip hgate hspawn hcfg hnev
    rw [handleStart_spawn_ok env req stid init hwd hip hgate hspawn]
    unfold persistPermissionMode
    rw [if_pos (show tsTruthy (builtConfig env req).permissionMode = true by
      rw [hcfg]
      show (!decide (pmv = "")) = true
      simp [hnev])]
    obtain ⟨si2, hl2, hpm2, _⟩ := lookup_update_self
      (resumeBookkeeping env req stid init).1 init.session_id
      ⟨(builtConfig env req).permissionMode, none⟩
    refine ⟨si2, hl2, ?_⟩
    rw [hpm2]
    show optOr (builtConfig env req).permissionMode _ = some pmv
    rw [hcfg]
    rfl
  constructor
  · intro rid si m hrid hpmnone hwd hip hlookup hsipm hnem hspawn
    have hcfg : (builtConfig env req).permissionMode = some m := by
      show tsOr req.permissionMode (inheritedMode env req) = some m
      unfold tsOr
      rw [hpmnone]
      rw [show tsTruthy none = false from rfl]
      simp only [Bool.false_eq_true, if_false]
      unfold inheritedMode
      rw [hrid, hpmnone]
      rw [show tsTruthy none = false from rfl]
      simp only [Bool.false_eq_true, if_false]
      rw [hlookup]
      show si.permission_mode = some m
      exact hsipm
    have hgate : (tsTruthy req.permissionMode &&
        !(validModes.contains ((req.permissionMode).getD ""))) = false := by
      rw [hpmnone]
      rfl
    exact ⟨hcfg, general m hwd hip hgate hspawn hcfg hnem⟩
  · exact general

/-- C6 witness: a concrete resumed start without a supplied mode inherits
"acceptEdits" from the resumed session and stores it under the new
session id. -/
theorem start_permission_mode_inheritance_witness :
    (builtConfig envC6 reqC6).permissionMode = some "acceptEdits" ∧
    (∃ si2, ((handleStart envC6 reqC6).2.1).lookup initC6.session_id = some si2 ∧
      si2.permission_mode = some "acceptEdits") :=
  (start_permission_mode_inheritance envC6 reqC6 "st6" initC6).1 "old6"
    ⟨some "acceptEdits", none⟩ "acceptEdits" rfl rfl rfl rfl rfl rfl (by decide) rfl


/-! ## Claim theorems: file-system path validation -/

/-- C8 (amended): listDirectory, readFile, downloadFile and deleteFile
each reject, with an HTTP 400 error and without touching the file system,
every path that is not absolute, contains the substring `..`, a null
byte, one of the characters `<>:|?*`, or a hidden segment — a segment
starting with `.` other than the bare `.` that normalization removes. -/
theorem fsOps_reject_invalid_path (mfs : Nat) (igLib : Option String → String → Bool)
    (fs : FileSys) (p : String) (recursive respectGitignore : Bool)
    (hbad : rejectedPath p) :
    ∃ e, e.status = 400 ∧
      listDirectory ⟨mfs, []⟩ igLib fs p recursive respectGitignore = (.error e, []) ∧
      readFile ⟨mfs, []⟩ fs p = (.error e, []) ∧
      downloadFile ⟨mfs, []⟩ fs p = (.error e, []) ∧
      deleteFile ⟨mfs, []⟩ fs p = (.error e, fs, []) := by
  obtain ⟨e, hv, hst⟩ := validatePath_rejects ⟨mfs, []⟩ p rfl hbad
  refine ⟨e, hst, ?_, ?_, ?_, ?_⟩
  · unfold listDirectory
    rw [hv]
  · unfold readFile
    rw [hv]
  · unfold downloadFile
    rw [hv]
  · unfold deleteFile
    rw [hv]

/-- C8 witness: a relative path is rejected by all four operations with a
400 error and an empty access trace. -/
theorem fsOps_reject_invalid_path_witness :
    rejectedPath "relative/path" ∧
    (∃ e, e.status = 400 ∧
      listDirectory ⟨10, []⟩ (fun _ _ => false) ⟨[], []⟩ "relative/path" false false =
        (.error e, []) ∧
      readFile ⟨10, []⟩ ⟨[], []⟩ "relative/path" = (.error e, []) ∧
      downloadFile ⟨10, []⟩ ⟨[], []⟩ "relative/path" = (.error e, []) ∧
      deleteFile ⟨10, []⟩ ⟨[], []⟩ "relative/path" = (.error e, ⟨[], []⟩, [])) :=
  ⟨by decide, fsOps_reject_invalid_path 10 (fun _ _ => false) ⟨[], []⟩ "relative/path"
    false false (by decide)⟩

/-- C8 counterexample: "/a/./b" contains a segment starting with `.`
(the bare `.`), yet validation accepts it and readFile proceeds to stat
and read the file, against the claimed unconditional rejection. -/
theorem validate_dot_segment_counterexample :
    (∃ s ∈ splitOnChar '/' "/a/./b".data, s.head? = some '.') ∧
    validatePath defaultFSConfig "/a/./b" = .ok "/a/b" ∧
    (readFile defaultFSConfig fsC8 "/a/./b").2 = [.statE "/a/b", .readE "/a/b"] := by
  decide

/-! ## Claim theorems: download cwd restriction -/

/-- C9: both download routes (single file and bulk) reject with HTTP 403,
and with no file-system access at all, any request naming a file whose
normalized path does not start with the conversation's normalized working
directory — the first message's cwd, falling back to the metadata project
path. -/
theorem downloads_outside_cwd_rejected :
    (∀ (henv : HistoryEnv) (cfg : FSConfig) (fs : FileSys) (p sid : String)
      (md : ConvMetadata) (msgs : List ConversationMessage) (cwdS : String),
      ¬(p = "") → ¬(sid = "") →
      henv.getConversationMetadata sid = some md →
      henv.fetchConversation sid = .ok msgs →
      ¬(msgs.length = 0) →
      conversationCwdOf md msgs = some cwdS → ¬(cwdS = "") →
      jsStartsWith (pathNormalize p) (pathNormalize cwdS) = false →
      handleFileDownload henv cfg fs ⟨some p, some sid⟩ =
        (.error ⟨"PATH_OUTSIDE_CWD",
          "Download is restricted to files within the conversation working directory",
          403⟩, [])) ∧
    (∀ (henv : HistoryEnv) (cfg : FSConfig) (fs : FileSys) (sid : String)
      (files : List String) (md : ConvMetadata) (msgs : List ConversationMessage)
      (cwdS f : String),
      ¬(sid = "" ∨ sid.data.all (fun c => c.isWhitespace)) →
      henv.getConversationMetadata sid = some md →
      henv.fetchConversation sid = .ok msgs →
      ¬(msgs.length = 0) →
      conversationCwdOf md msgs = some cwdS → ¬(cwdS = "") →
      f ∈ files →
      jsStartsWith (pathNormalize f) (pathNormalize cwdS) = false →
      ∃ e, handleBulkDownload henv cfg fs ⟨sid, some files⟩ = (.error e, []) ∧
        e.status = 403 ∧ e.code = "FILES_OUTSIDE_CWD") := by
  constructor
  · intro henv cfg fs p sid md msgs cwdS hp hsid hmd hfetch hlen hcwd hcs hout
    have h1 : (!tsTruthy (some p)) = false := by simp [tsTruthy, hp]
    have h2 : (!tsTruthy (some sid)) = false := by simp [tsTruthy, hsid]
    have h3 : (!tsTruthy (conversationCwdOf md msgs)) = false := by
      rw [hcwd]; simp [tsTruthy, hcs]
    have h4 : (!(jsStartsWith (pathNormalize p)
        (pathNormalize ((conversationCwdOf md msgs).getD "")))) = true := by
      rw [hcwd]
      simp only [Option.getD_some]
      rw [hout]
      rfl
    unfold handleFileDownload
    simp only [Option.getD_some, h1, h2, hmd, hfetch, hlen, h3, h4, Bool.false_eq_true,
      if_false, if_true, ite_false, ite_true]
  · intro henv cfg fs sid files md msgs cwdS f hsid hmd hfetch hlen hcwd hcs hf hout
    refine ⟨⟨"FILES_OUTSIDE_CWD",
      "Some files are outside the conversation working directory: " ++
      String.intercalate ", " (files.filter
        (fun filePath => !(jsStartsWith (pathNormalize filePath)
          (pathNormalize ((conversationCwdOf md msgs).getD ""))))), 403⟩, ?_, rfl, rfl⟩
    have hflen : ¬(files.length = 0) := by
      intro h0
      rw [List.length_eq_zero] at h0
      rw [h0] at hf
      simp at hf
    have h3 : (!tsTruthy (conversationCwdOf md msgs)) = false := by
      rw [hcwd]; simp [tsTruthy, hcs]
    have hmem : f ∈ files.filter (fun filePath => !(jsStartsWith (pathNormalize filePath)
        (pathNormalize ((conversationCwdOf md msgs).getD "")))) := by
      refine List.mem_filter.mpr ⟨hf, ?_⟩
      rw [hcwd]
      simp only [Option.getD_some]
      rw [hout]
      rfl
    have hpos : 0 < (files.filter (fun filePath => !(jsStartsWith (pathNormalize filePath)
        (pathNormalize ((conversationCwdOf md msgs).getD ""))))).length :=
      List.length_pos.mpr (by
        intro h0
        rw [h0] at hmem
        simp at hmem)
    unfold handleBulkDownload
    rw [if_neg (by simpa using hsid)]
    simp only [hflen, hmd, hfetch, hlen, h3, hpos, Bool.false_eq_true, if_false,
      if_true, ite_false, ite_true]

/-- C9 witness: a concrete file outside the conversation cwd is rejected
by both routes with 403 and no file-system events. -/
theorem downloads_outside_cwd_rejected_witness :
    handleFileDownload henvC9 defaultFSConfig ⟨[], []⟩ ⟨some "/etc/passwd", some "s9"⟩ =
      (.error ⟨"PATH_OUTSIDE_CWD",
        "Download is restricted to files within the conversation working directory",
        403⟩, []) ∧
    (∃ e, handleBulkDownload henvC9 defaultFSConfig ⟨[], []⟩
        ⟨"s9", some ["/etc/passwd"]⟩ = (.error e, []) ∧
      e.status = 403 ∧ e.code = "FILES_OUTSIDE_CWD") :=
  ⟨downloads_outside_cwd_rejected.1 henvC9 defaultFSConfig ⟨[], []⟩ "/etc/passwd" "s9"
    ⟨some "/proj", "sum"⟩ [⟨"u1", some "/proj", "m"⟩] "/proj"
    (by decide) (by decide) rfl rfl (by decide) (by decide) (by decide) (by decide),
   downloads_outside_cwd_rejected.2 henvC9 defaultFSConfig ⟨[], []⟩ "s9"
    ["/etc/passwd"] ⟨some "/proj", "sum"⟩ [⟨"u1", some "/proj", "m"⟩] "/proj" "/etc/passwd"
    (by decide) rfl rfl (by decide) (by decide) (by decide) (by decide) (by decide)⟩


/-! ## Claim theorems: upload overwrite behavior -/

/-- C10 (amended): uploadFile never overwrites the file at the requested
name — on a collision the content goes to the timestamp-suffixed name,
which is a different path — and every pre-existing file other than the
finally chosen path keeps its content; only a pre-existing file at the
timestamp-suffixed name itself can be replaced. -/
theorem uploadFile_no_overwrite (cfg : FSConfig) (fs : FileSys) (dest : String)
    (buf : List Nat) (name : String) (now : Nat) (d : String) (n : DirNode)
    (hval : validatePath cfg dest = .ok d)
    (hdir : fs.dirs.lookup d = some n)
    (hbase : pathBasename name = name)
    (hnull : strHasChar name nullChar = false)
    (hchars : hasInvalidChar name = false)
    (hdot : jsStartsWith name "." = false)
    (hname : ¬(name = ""))
    (hsize : buf.length ≤ cfg.maxFileSize) :
    (uploadFile cfg fs dest buf name now).1 =
      .ok ⟨if fs.existsAt (pathJoin d name) = true
           then pathJoin d (timestampedName name now)
           else pathJoin d name, buf.length⟩ ∧
    (∀ q content, ¬(q = (if fs.existsAt (pathJoin d name) = true
           then pathJoin d (timestampedName name now)
           else pathJoin d name)) →
      fs.files.lookup q = some content →
      ((uploadFile cfg fs dest buf name now).2.1).files.lookup q = some content) ∧
    (fs.existsAt (pathJoin d name) = true →
      ¬(pathJoin d (timestampedName name now) = pathJoin d name)) := by
  have h1 : (!decide (pathBasename name = name)) = false := by simp [hbase]
  have hsz : ¬(buf.length > cfg.maxFileSize) := by omega
  have hred : uploadFile cfg fs dest buf name now =
      (.ok ⟨(if fs.existsAt (pathJoin d name) = true
             then pathJoin d (timestampedName name now) else pathJoin d name),
            buf.length⟩,
       fs.write (if fs.existsAt (pathJoin d name) = true
             then pathJoin d (timestampedName name now) else pathJoin d name)
         buf (natToStr now),
       [.statE d, .statE (pathJoin d name),
        .writeE (if fs.existsAt (pathJoin d name) = true
             then pathJoin d (timestampedName name now) else pathJoin d name) buf]) := by
    unfold uploadFile
    simp only [h1, hnull, hchars, hdot, hval, hsz, FileSys.stat, hdir,
      Bool.false_eq_true, if_false, ite_false, ite_true]
  refine ⟨by rw [hred], ?_, ?_⟩
  · intro q content hq hlook
    rw [hred]
    show List.lookup q (((if fs.existsAt (pathJoin d name) = true
        then pathJoin d (timestampedName name now) else pathJoin d name),
        (⟨buf, natToStr now⟩ : FileData)) :: fs.files) = some content
    have hbeq : (q == (if fs.existsAt (pathJoin d name) = true
        then pathJoin d (timestampedName name now) else pathJoin d name)) = false := by
      simp only [beq_eq_false_iff_ne, ne_eq]
      exact hq
    simp only [List.lookup, hbeq]
    exact hlook
  · intro hex hjoin
    obtain ⟨habsd, hddd, hdn⟩ := validatePath_ok_inv cfg dest d hval
    have habs : pathIsAbsolute d = true := by
      rw [hdn]
      exact pathNormalize_absolute dest habsd
    have hdd : ∀ s ∈ splitOnChar '/' d.data, ¬(s = ['.', '.']) := by
      rw [hdn]
      exact pathNormalize_no_dotdot_seg dest habsd (no_dotdot_segment dest hddd)
    have hnfree := slash_not_mem_name_of_basename name hbase
    have hnne := name_data_ne_nil name hname
    obtain ⟨hnd1, hnd2⟩ := name_ne_dots name hdot
    have htfree := slash_not_mem_timestamped name now hbase
    have htne : ¬((timestampedName name now).data = []) := by
      intro h
      have hc := congrArg List.length h
      rw [timestampedName_length name now hbase] at hc
      simp only [List.length_nil] at hc
      have hnn : 0 < name.data.length := List.length_pos.mpr hnne
      omega
    obtain ⟨htd1, htd2⟩ := timestamped_ne_dot name now hbase hname
    have htsne := timestampedName_ne_name name now hbase
    exact pathJoin_ne_of_data_ne d (timestampedName name now) name habs hdd
      htfree htne htd1 htd2 hnfree hnne hnd1 hnd2 htsne hjoin

/-- C10 witness: a collision-free upload writes the requested name and a
pre-existing sibling file is unchanged. -/
theorem uploadFile_no_overwrite_witness :
    (uploadFile defaultFSConfig fsC10w "/d" [9] "a.txt" 100).1 =
      .ok ⟨if fsC10w.existsAt (pathJoin "/d" "a.txt") = true
           then pathJoin "/d" (timestampedName "a.txt" 100)
           else pathJoin "/d" "a.txt", 1⟩ ∧
    ((uploadFile defaultFSConfig fsC10w "/d" [9] "a.txt" 100).2.1).files.lookup
      "/d/other.txt" = some ⟨[7], "t0"⟩ :=
  ⟨(uploadFile_no_overwrite defaultFSConfig fsC10w "/d" [9] "a.txt" 100 "/d" ⟨[], "t0"⟩
      (by decide) (by decide) (by decide) (by decide) (by decide) (by decide) (by decide)
      (by decide)).1,
   (uploadFile_no_overwrite defaultFSConfig fsC10w "/d" [9] "a.txt" 100 "/d" ⟨[], "t0"⟩
      (by decide) (by decide) (by decide) (by decide) (by decide) (by decide) (by decide)
      (by decide)).2.1 "/d/other.txt" ⟨[7], "t0"⟩ (by decide) (by decide)⟩

/-- C10 counterexample: with both a.txt and a.100.txt present, uploading
a.txt at timestamp 100 succeeds and replaces the pre-existing a.100.txt,
so not every file that existed before the call is unchanged. -/
theorem upload_timestamp_overwrite_counterexample :
    fsC10.files.lookup "/d/a.100.txt" = some ⟨[2], "t0"⟩ ∧
    (uploadFile defaultFSConfig fsC10 "/d" [3] "a.txt" 100).1 =
      .ok ⟨"/d/a.100.txt", 1⟩ ∧
    ((uploadFile defaultFSConfig fsC10 "/d" [3] "a.txt" 100).2.1).files.lookup
      "/d/a.100.txt" = some ⟨[3], "100"⟩ := by decide

end CUI
